import Mathlib

/-!
# bwanews: content catalogue query and mutation engine

A shallow embedding of the content repository
(`internal/adapter/repository/content_repository.go`), of the content
handlers (`internal/adapter/handler/content_handler.go`), of the struct
validator (`lib/validator/validator_request.go`) and of the R2 adapter
(`internal/adapter/cloudflare/r2.go`), together with the library operations
they rely on (`strings.Join`, `strings.Split`, 64-bit integer and `float64`
arithmetic, SQL `LIKE`, local files and the object store), followed by
theorems about them.
-/

set_option autoImplicit false

namespace bwanews

/-- Go `string`, as the sequence of its characters. -/
abbrev Str := List Char

/-! ## Package `strings` -/

namespace strings

/-- Go `strings.Join(elems, sep)`: the empty string for no element, the element
itself for one, otherwise the first element followed by `sep` and the next
element, for every further element. -/
def Join : List Str → Str → Str
  | [], _ => []
  | [a], _ => a
  | a :: b :: rest, sep => a ++ sep ++ Join (b :: rest) sep

/-- The scanning loop of Go `strings.Split` for a non-empty separator: `skip`
counts the characters of a separator occurrence still to be passed over, `cur`
holds (reversed) the characters of the piece being read.  A piece ends at the
first position where `sep` occurs, the next one starts right behind it. -/
def splitAux (sep : Str) : Str → Nat → Str → List Str
  | [], _, cur => [cur.reverse]
  | _ :: s, skip + 1, cur => splitAux sep s skip cur
  | c :: s, 0, cur =>
    if sep.isPrefixOf (c :: s) then cur.reverse :: splitAux sep s (sep.length - 1) []
    else splitAux sep s 0 (c :: cur)

/-- Go `strings.Split(s, sep)`: with an empty separator `s` is cut after every
character, otherwise it is cut at every occurrence of `sep`. -/
def Split (s sep : Str) : List Str :=
  if sep = [] then s.map (fun c => [c]) else splitAux sep s 0 []

end strings

/-- The tag delimiter `","` of the repository and of the handlers. -/
def comma : Str := [',']

/-! ## Machine arithmetic -/

/-- The value of a Go `int` / `int64` expression whose exact result is `x`:
two's complement wrap-around to 64 bits. -/
def wrapInt64 (x : Int) : Int := (x + 2 ^ 63) % 2 ^ 64 - 2 ^ 63

namespace float64

/-- A finite non-negative `float64` value, `m * 2 ^ e`. -/
structure F where
  m : Nat
  e : Int
deriving DecidableEq, Repr

/-- Number of doublings of `n` needed to reach `n / d ≥ 2 ^ 52`. -/
def upShift : Nat → Nat → Nat → Nat
  | 0, _, _ => 0
  | f + 1, n, d => if n < d * 2 ^ 52 then upShift f (2 * n) d + 1 else 0

/-- Number of doublings of `d` needed to reach `n / d < 2 ^ 53`. -/
def downShift : Nat → Nat → Nat → Nat
  | 0, _, _ => 0
  | f + 1, n, d => if d * 2 ^ 53 ≤ n then downShift f n (2 * d) + 1 else 0

/-- IEEE 754 rounding of the exact quotient `n / d` to binary64: the quotient
is scaled to a 53-bit significand and rounded to the nearest integer, ties to
the even one.  The exponent search is bounded by 256 steps, which covers
every quotient between `2 ^ (-200)` and `2 ^ 200`. -/
def roundNE (n d : Nat) : F :=
  if n = 0 then ⟨0, 0⟩ else
  let u := upShift 256 n d
  let w := downShift 256 n d
  let n1 := n * 2 ^ u
  let d1 := d * 2 ^ w
  let q := n1 / d1
  let r := n1 % d1
  let m := if 2 * r < d1 then q else if d1 < 2 * r then q + 1 else if q % 2 = 0 then q else q + 1
  ⟨m, (w : Int) - (u : Int)⟩

/-- Go conversion `float64(n)` of a non-negative integer. -/
def ofInt (n : Nat) : F := roundNE n 1

/-- Go `x / y` on `float64` values (`y` non-zero). -/
def div (x y : F) : F :=
  roundNE (x.m * 2 ^ (x.e - y.e).toNat) (y.m * 2 ^ (y.e - x.e).toNat)

/-- Go `math.Ceil(x)`, given as the integer it denotes. -/
def Ceil (x : F) : Nat :=
  if 0 ≤ x.e then x.m * 2 ^ x.e.toNat
  else (x.m + 2 ^ (-x.e).toNat - 1) / 2 ^ (-x.e).toNat

/-- Go conversion `int(c)` of an integral `float64`; a value that does not fit
gives the amd64 result, the smallest `int64`. -/
def toInt (c : Nat) : Int := if c < 2 ^ 63 then (c : Int) else -(2 ^ 63)

end float64

/-! ## SQL pattern matching -/

namespace sql

/-- The matching loop of `LIKE`, with the flag telling that the previous pattern
character was the escape character: `%` stands for any sequence of characters,
`_` for any single character, a backslash takes the next pattern character
literally; a pattern that ends inside an escape matches nothing. -/
def likeFrom : Str → Bool → Str → Bool
  | [], esc, t => !esc && t.isEmpty
  | c :: p, true, t =>
    match t with
    | [] => false
    | d :: u => d == c && likeFrom p false u
  | c :: p, false, t =>
    if c = '%' then t.tails.any (fun u => likeFrom p false u)
    else if c = '\\' then likeFrom p true t
    else
      match t with
      | [] => false
      | d :: u => (c == '_' || d == c) && likeFrom p false u

/-- PostgreSQL `text LIKE pat`. -/
def like (pat text : Str) : Bool := likeFrom pat false text

/-- A pattern character that stands for itself: none of `%`, `_` and the
backslash. -/
def plain (c : Char) : Prop := c ≠ '%' ∧ c ≠ '_' ∧ c ≠ '\\'

instance (c : Char) : Decidable (plain c) := by unfold plain; infer_instance

/-- The case folding of a database, which depends on its locale: the lower-case
form of every character.  The three pattern characters have no case in any
locale: they are left as they are and are the lower-case form of no other
character. -/
structure Collation where
  lower : Char → Char
  lower_pattern : ∀ c, ¬ plain c → lower c = c
  lower_plain : ∀ c, plain c → plain (lower c)

/-- The case folding of the `C` locale: the letters `A` to `Z` become `a` to
`z`, every other character is left as it is. -/
def Collation.C : Collation where
  lower := Char.toLower
  lower_pattern := by
    intro c hc
    have h : c = '%' ∨ c = '_' ∨ c = '\\' := by
      unfold plain at hc
      by_contra hn
      exact hc ⟨fun e => hn (Or.inl e), fun e => hn (Or.inr (Or.inl e)),
        fun e => hn (Or.inr (Or.inr e))⟩
    rcases h with rfl | rfl | rfl <;> rfl
  lower_plain := by
    intro c hc
    unfold Char.toLower
    simp only
    split
    · rename_i h
      obtain ⟨h1, h2⟩ := h
      generalize c.toNat = n at h1 h2
      interval_cases n <;> decide
    · exact hc

/-- Case folding of a string under the collation `k`. -/
def lower (k : Collation) (s : Str) : Str := s.map k.lower

/-- PostgreSQL `text ILIKE pat`: `LIKE` on the pattern and the text, both folded
to lower case under the collation of the database. -/
def ilike (k : Collation) (pat text : Str) : Bool := like (lower k pat) (lower k text)

end sql

/-! ## Domain entities and storage rows -/

namespace entity

/-- Go `entity.CategoryEntity`, the fields the content code uses. -/
structure CategoryEntity where
  ID : Int
  Title : Str
  Slug : Str
deriving DecidableEq, Repr

/-- Go `entity.UserEntity`, the fields the content code uses. -/
structure UserEntity where
  ID : Int
  Name : Str
deriving DecidableEq, Repr

/-- Go `entity.ContentEntity`; `CreatedAt` is the instant as a number. -/
structure ContentEntity where
  ID : Int
  Title : Str
  Excerpt : Str
  Description : Str
  Image : Str
  Tags : List Str
  Status : Str
  CategoryID : Int
  CreatedByID : Int
  CreatedAt : Int
  Category : CategoryEntity
  User : UserEntity
deriving DecidableEq, Repr

/-- Go `entity.QueryString`. -/
structure QueryString where
  Limit : Int
  Page : Int
  OrderBy : Str
  OrderType : Str
  Search : Str
  Status : Str
  CategoryID : Int
deriving DecidableEq, Repr

/-- Go `entity.FileUploadEntity`: the object key and the path of the staged
file. -/
structure FileUploadEntity where
  Name : Str
  Path : Str
deriving DecidableEq, Repr

end entity

namespace model

/-- Go `model.Category`, the fields the content code uses. -/
structure Category where
  ID : Int
  Title : Str
  Slug : Str
deriving DecidableEq, Repr

/-- Go `model.User`, the fields the content code uses. -/
structure User where
  ID : Int
  Name : Str
deriving DecidableEq, Repr

/-- Go `model.Content`, a row of the contents table with its preloaded
associations; `Tags` is the single delimited field. -/
structure Content where
  ID : Int
  Title : Str
  Excerpt : Str
  Description : Str
  Image : Str
  Tags : Str
  Status : Str
  CategoryID : Int
  CreatedByID : Int
  CreatedAt : Int
  Category : Category
  User : User
deriving DecidableEq, Repr

end model

/-! ## The content repository -/

namespace repository

open entity

/-- The statements the repository sends to the store. -/
inductive Stmt where
  | create
  | update
  | first
  | count
  | find
deriving DecidableEq, Repr

/-- The relational store behind `gorm.DB`: the rows of the contents table (in
storage order; their association fields are filled on reading), the category
and user tables, the values the store assigns to a new row, the comparison of
two rows under an `ORDER BY` clause, the case folding of the database, and
the error, if any, with which each kind of statement fails. -/
structure DB where
  contents : List model.Content
  categories : List model.Category
  users : List model.User
  nextID : Int
  now : Int
  orderLE : Str → model.Content → model.Content → Bool
  collation : sql.Collation
  fault : Stmt → Option Str

/-- The rows sorted as `ORDER BY order` asks. -/
def DB.orderBy (db : DB) (order : Str) (rows : List model.Content) : List model.Content :=
  rows.insertionSort (fun a b => db.orderLE order a b = true)

/-- GORM `Preload(clause.Associations)`: the category and the author of a row
are looked up by key; a missing one leaves the zero value. -/
def preload (db : DB) (m : model.Content) : model.Content :=
  { m with
    Category := (db.categories.find? (fun c => c.ID == m.CategoryID)).getD ⟨0, [], []⟩
    User := (db.users.find? (fun u => u.ID == m.CreatedByID)).getD ⟨0, []⟩ }

/-- The `model.Content` literal of `CreateContent` and `EditContentByID`: the
tags are joined with `","`, the remaining fields keep their zero value. -/
def toModel (req : ContentEntity) : model.Content :=
  let tags := strings.Join req.Tags comma
  { ID := 0
    Title := req.Title
    Excerpt := req.Excerpt
    Description := req.Description
    Image := req.Image
    Tags := tags
    Status := req.Status
    CategoryID := req.CategoryID
    CreatedByID := req.CreatedByID
    CreatedAt := 0
    Category := ⟨0, [], []⟩
    User := ⟨0, []⟩ }

/-- The `entity.ContentEntity` literal of `GetContentByID` and of the loop of
`GetContents`: the tags field is split on `","`. -/
def toEntity (content : model.Content) : ContentEntity :=
  let tags := strings.Split content.Tags comma
  { ID := content.ID
    Title := content.Title
    Excerpt := content.Excerpt
    Description := content.Description
    Image := content.Image
    Tags := tags
    Status := content.Status
    CategoryID := content.CategoryID
    CreatedByID := content.CreatedByID
    CreatedAt := content.CreatedAt
    Category := ⟨content.Category.ID, content.Category.Title, content.Category.Slug⟩
    User := ⟨content.User.ID, content.User.Name⟩ }

/-- Repository `CreateContent`: inserts the row built from `req`; the store
assigns the key and the creation time. -/
def CreateContent (db : DB) (req : ContentEntity) : Except Str DB :=
  let modelContent := toModel req
  match db.fault .create with
  | some err => .error err
  | none =>
    .ok { db with
          contents := db.contents ++ [{ modelContent with ID := db.nextID, CreatedAt := db.now }]
          nextID := db.nextID + 1 }

/-- GORM `Updates` with a struct: only the non-zero fields are written. -/
def updates (row new : model.Content) : model.Content :=
  { row with
    Title := if new.Title = [] then row.Title else new.Title
    Excerpt := if new.Excerpt = [] then row.Excerpt else new.Excerpt
    Description := if new.Description = [] then row.Description else new.Description
    Image := if new.Image = [] then row.Image else new.Image
    Tags := if new.Tags = [] then row.Tags else new.Tags
    Status := if new.Status = [] then row.Status else new.Status
    CategoryID := if new.CategoryID = 0 then row.CategoryID else new.CategoryID
    CreatedByID := if new.CreatedByID = 0 then row.CreatedByID else new.CreatedByID }

/-- Repository `EditContentByID`: updates the rows whose key is `req.ID`. -/
def EditContentByID (db : DB) (req : ContentEntity) : Except Str DB :=
  let modelContent := toModel req
  match db.fault .update with
  | some err => .error err
  | none =>
    .ok { db with
          contents := db.contents.map
            (fun m => if m.ID = req.ID then updates m modelContent else m) }

/-- The error of GORM `First` when no row matches. -/
def ErrRecordNotFound : Str := "record not found".toList

/-- Repository `GetContentByID`: the first row whose key is `id`, with its
tags decoded, or the error of the store. -/
def GetContentByID (db : DB) (id : Int) : Except Str ContentEntity :=
  match db.fault .first with
  | some err => .error err
  | none =>
    match db.contents.find? (fun m => m.ID == id) with
    | none => .error ErrRecordNotFound
    | some modelContent => .ok (toEntity (preload db modelContent))

/-- The defaults at the head of `GetContents`. -/
def applyDefaults (query : QueryString) : QueryString :=
  let query := if query.Limit ≤ 0 then { query with Limit := 10 } else query
  let query := if query.Page ≤ 0 then { query with Page := 1 } else query
  let query := if query.OrderBy = [] then { query with OrderBy := "created_at".toList } else query
  let query := if query.OrderType = [] then { query with OrderType := "DESC".toList } else query
  query

/-- The local `order` of `GetContents`, on the defaulted query. -/
def orderOf (query : QueryString) : Str := query.OrderBy ++ " ".toList ++ query.OrderType

/-- The local `offset` of `GetContents`, on the defaulted query: the `int`
product `(query.Page - 1) * query.Limit`. -/
def offsetOf (query : QueryString) : Int := wrapInt64 (wrapInt64 (query.Page - 1) * query.Limit)

/-- The conditions of `sqlMain`, on the defaulted query: the search pattern on
title, excerpt or description, the status pattern, and the category when
`CategoryID > 0`. -/
def sqlMain (db : DB) (query : QueryString) (m : model.Content) : Bool :=
  let status := if query.Status ≠ [] then query.Status else []
  let pat := "%".toList ++ query.Search ++ "%".toList
  (sql.ilike db.collation pat m.Title || sql.ilike db.collation pat m.Excerpt
      || sql.ilike db.collation pat m.Description)
    && sql.like ("%".toList ++ status ++ "%".toList) m.Status
    && (if query.CategoryID > 0 then m.CategoryID == query.CategoryID else true)

/-- The local `totalPages` of `GetContents`:
`int(math.Ceil(float64(countData) / float64(query.Limit)))`, then `int64(..)`. -/
def totalPages (countData : Nat) (limit : Int) : Int :=
  float64.toInt (float64.Ceil (float64.div (float64.ofInt countData) (float64.ofInt limit.toNat)))

/-- GORM `Limit(limit).Offset(offset)`: an `OFFSET` clause is emitted only for a
positive offset, a `LIMIT` clause only for a non-negative limit. -/
def limitOffset (limit offset : Int) (rows : List model.Content) : List model.Content :=
  let rows := if offset > 0 then rows.drop offset.toNat else rows
  if limit ≥ 0 then rows.take limit.toNat else rows

/-- Repository `GetContents`: items of the requested page, number of rows
matching the filter, number of pages. -/
def GetContents (db : DB) (query : QueryString) : Except Str (List ContentEntity × Int × Int) :=
  let query := applyDefaults query
  let order := orderOf query
  let offset := offsetOf query
  let matching := db.contents.filter (sqlMain db query)
  match db.fault .count with
  | some err => .error err
  | none =>
    let countData := matching.length
    let totalPages := totalPages countData query.Limit
    match db.fault .find with
    | some err => .error err
    | none =>
      let modelContents :=
        (limitOffset query.Limit offset (db.orderBy order matching)).map (preload db)
      let resps := modelContents.map toEntity
      .ok (resps, (countData : Int), totalPages)

end repository

/-! ## Package `conv` -/

namespace conv

/-- Value of a decimal digit. -/
def digit (c : Char) : Option Nat :=
  if '0' ≤ c ∧ c ≤ '9' then some (c.toNat - '0'.toNat) else none

/-- Value of a non-empty sequence of decimal digits appended to `acc`. -/
def digits : Str → Nat → Option Nat
  | [], acc => some acc
  | c :: s, acc =>
    match digit c with
    | none => none
    | some v => digits s (acc * 10 + v)

/-- The error text of a failed conversion. -/
def ErrSyntax : Str := "invalid syntax".toList

/-- Modelled from the spec: `conv.StringToInt` (package `lib/conv` is not among
the sources), for which the spec says that a numeric field "must parse as an
integer" and that anything else is a parse failure: an optional sign followed
by one or more decimal digits, within the range of a 64-bit `int`. -/
def StringToInt (s : Str) : Except Str Int :=
  let parsed : Option Int :=
    match s with
    | [] => none
    | '-' :: c :: r => (digits (c :: r) 0).map (fun n => -(n : Int))
    | '+' :: c :: r => (digits (c :: r) 0).map (fun n => (n : Int))
    | r => (digits r 0).map (fun n => (n : Int))
  match parsed with
  | none => .error ErrSyntax
  | some v => if -(2 ^ 63) ≤ v ∧ v < 2 ^ 63 then .ok v else .error ErrSyntax

end conv

/-! ## Package `validatorLib` -/

namespace validatorLib

/-- A `validator.FieldError`, the parts `ValidateStruct` reads. -/
structure FieldError where
  Tag : Str
  Field : Str
  Param : Str
deriving DecidableEq, Repr

/-- The loop of `joinMessages` from position `i` on, `result` being the text
built so far. -/
def joinMessagesFrom : List Str → Nat → Str → Str
  | [], _, result => result
  | msg :: rest, i, result =>
    let result := if i > 0 then result ++ "; ".toList else result
    joinMessagesFrom rest (i + 1) (result ++ msg)

/-- Go `joinMessages`. -/
def joinMessages (messages : List Str) : Str := joinMessagesFrom messages 0 []

/-- The message `ValidateStruct` builds for one field error, by its tag. -/
def message (err : FieldError) : Str :=
  if err.Tag = "required".toList then err.Field ++ " is required".toList
  else if err.Tag = "email".toList then err.Field ++ " must be a valid email".toList
  else if err.Tag = "min".toList then
    err.Field ++ " must be at least ".toList ++ err.Param ++ " characters long".toList
  else if err.Tag = "eqfield".toList then err.Field ++ " must be equal to ".toList ++ err.Param
  else err.Field ++ " is not valid".toList

/-- Go `ValidateStruct`, given what `validate.Struct(s)` returned: `none` for a
nil error, otherwise the field errors.  The result is the text of the error
returned, `none` for nil. -/
def ValidateStruct (err : Option (List FieldError)) : Option Str :=
  match err with
  | none => none
  | some errs =>
    let errorMessages := errs.map message
    some ("validation error: ".toList ++ joinMessages errorMessages)

end validatorLib

/-! ## Local files and the R2 object store -/

/-- The operations on the outside world that can fail on their own. -/
inductive Syscall where
  | SaveFile
  | PutObject
  | Remove
deriving DecidableEq, Repr

/-- An object of the R2 store. -/
structure Object where
  Bucket : Str
  Key : Str
  Body : Str
  ContentType : Str
deriving DecidableEq, Repr

/-- The state outside the process: the local files (path and content), the
remote objects, the clock reading in nanoseconds, and the error, if any, with
which an operation fails. -/
structure World where
  files : List (Str × Str)
  objects : List Object
  now : Int
  fault : Syscall → Option Str

namespace os

/-- The error of opening or removing a missing file. -/
def ErrNotExist : Str := "no such file or directory".toList

/-- Whether a local file exists. -/
def fileExists (w : World) (path : Str) : Bool := (w.files.lookup path).isSome

/-- Go `os.Open(path)` followed by reading: the content of the file. -/
def Open (w : World) (path : Str) : Except Str Str :=
  match w.files.lookup path with
  | none => .error ErrNotExist
  | some data => .ok data

/-- Writing `data` to `path`, replacing what was there. -/
def write (w : World) (path data : Str) : World :=
  { w with files := (path, data) :: w.files.filter (fun f => !(f.1 == path)) }

/-- Go `os.Remove(path)`. -/
def Remove (w : World) (path : Str) : Option Str × World :=
  match w.fault .Remove with
  | some err => (some err, w)
  | none =>
    if fileExists w path then (none, { w with files := w.files.filter (fun f => !(f.1 == path)) })
    else (some ErrNotExist, w)

end os

namespace cloudflare

open entity

/-- Go `cloudflareR2Adapter`, without the client. -/
structure cloudflareR2Adapter where
  Bucket : Str
  BaseUrl : Str
  ExpiresAt : Int
deriving DecidableEq, Repr

/-- The S3 call `Client.PutObject`: stores the object under bucket and key. -/
def PutObject (w : World) (o : Object) : Option Str × World :=
  match w.fault .PutObject with
  | some err => (some err, w)
  | none =>
    (none, { w with objects :=
      o :: w.objects.filter (fun x => !(x.Bucket == o.Bucket && x.Key == o.Key)) })

/-- Adapter `UploadImage`: opens the staged file, puts it as `image/jpeg` under
the key `req.Name`, and returns `BaseUrl/req.Name`. -/
def UploadImage (c : cloudflareR2Adapter) (req : FileUploadEntity) (w : World) :
    Except Str Str × World :=
  match os.Open w req.Path with
  | .error err => (.error err, w)
  | .ok openedFile =>
    match PutObject w ⟨c.Bucket, req.Name, openedFile, "image/jpeg".toList⟩ with
    | (some err, w1) => (.error err, w1)
    | (none, w1) => (.ok (c.BaseUrl ++ "/".toList ++ req.Name), w1)

end cloudflare

/-! ## The content handlers -/

namespace handler

open entity

/-- Go `entity.JwtData`, the field the handlers read. -/
structure JwtData where
  UserID : Int
deriving DecidableEq, Repr

/-- Go `request.ContentRequest`. -/
structure ContentRequest where
  Title : Str
  Excerpt : Str
  Description : Str
  Image : Str
  Tags : Str
  Status : Str
  CategoryID : Int
deriving DecidableEq, Repr

/-- Go `response.ContentResponse`. -/
structure ContentResponse where
  ID : Int
  Title : Str
  Excerpt : Str
  Description : Str
  Image : Str
  Tags : List Str
  Status : Str
  CategoryID : Int
  CreatedByID : Int
  CreatedAt : Str
  CategoryName : Str
  Author : Str
deriving DecidableEq, Repr

/-- Go `response.PaginationResponse`. -/
structure PaginationResponse where
  TotalRecords : Int
  Page : Int
  PerPage : Int
  TotalPages : Int
deriving DecidableEq, Repr

/-- The package variable `errorResp`. -/
structure ErrorResponse where
  Status : Bool
  Message : Str
deriving DecidableEq, Repr

/-- The `Data` member of a success response. -/
inductive Data where
  | null
  | content (r : ContentResponse)
  | contents (rs : List ContentResponse)
  | urlImage (url : Str)
deriving DecidableEq, Repr

/-- The package variable `defaultSuccessResponse`; a handler overwrites the
members it sets and leaves the others as the previous request left them. -/
structure DefaultSuccessResponse where
  Status : Bool
  Message : Str
  Data : Data
  Pagination : Option PaginationResponse
deriving DecidableEq, Repr

/-- The JSON document sent. -/
inductive Body where
  | error (e : ErrorResponse)
  | success (s : DefaultSuccessResponse)
deriving DecidableEq, Repr

/-- What a handler does besides answering, in order: parsing of the request
body, validation, reading of a path parameter, reading and saving of an
uploaded file, removal of a local file, and calls of the content service with
their argument. -/
inductive Event where
  | BodyParser
  | ValidateStruct
  | Params (key : Str)
  | GetContents (query : QueryString)
  | CreateContent (req : ContentEntity)
  | EditContentByID (req : ContentEntity)
  | DeleteContent (id : Int)
  | GetContentByID (id : Int)
  | FormFile (key : Str)
  | SaveFile (path : Str)
  | UploadImageR2 (req : FileUploadEntity)
  | Remove (path : Str)
deriving DecidableEq, Repr

/-- The answer of a handler: status code, document, and the record of what it
did. -/
structure Reply where
  status : Nat
  body : Body
  trace : List Event
deriving DecidableEq, Repr

/-- An uploaded file, Go `multipart.FileHeader`: its name and its content. -/
structure FileHeader where
  Filename : Str
  Content : Str
deriving DecidableEq, Repr

/-- The parts of `fiber.Ctx` the handlers read: the identity stored under
`"user"`, the query parameters (`""` when absent), the path parameters, the
raw body and the uploaded files of the form. -/
structure Ctx where
  user : JwtData
  Query : Str → Str
  Params : Str → Str
  Body : Str
  FormFile : Str → Except Str FileHeader

/-- Go `service.ContentService`, the methods the handlers call; an error is
given by its text.  The upload works on the local files and the object store. -/
structure ContentService where
  GetContents : QueryString → Except Str (List ContentEntity × Int × Int)
  CreateContent : ContentEntity → Option Str
  EditContentByID : ContentEntity → Option Str
  DeleteContent : Int → Option Str
  GetContentByID : Int → Except Str ContentEntity
  UploadImageR2 : FileUploadEntity → World → Except Str Str × World

/-- The collaborators of the handlers: the conversions of package `conv`, the
body parser, the struct validator (its error text), the RFC 3339 formatting
of an instant, and the content service. -/
structure Deps where
  StringToInt : Str → Except Str Int
  StringToInt64 : Str → Except Str Int
  BodyParser : Str → Except Str ContentRequest
  ValidateStruct : ContentRequest → Option Str
  Format : Int → Str
  contentService : ContentService

def StatusOK : Nat := 200
def StatusCreated : Nat := 201
def StatusBadRequest : Nat := 400
def StatusUnauthorized : Nat := 401
def StatusInternalServerError : Nat := 500

/-- The error answer of every handler: `errorResp` with `Status = false` and
the given message, under the given status code. -/
def fail (status : Nat) (message : Str) (trace : List Event) : Reply :=
  ⟨status, .error ⟨false, message⟩, trace⟩

/-- The `response.ContentResponse` literal of the handlers. -/
def toResponse (d : Deps) (content : ContentEntity) : ContentResponse :=
  { ID := content.ID
    Title := content.Title
    Excerpt := content.Excerpt
    Description := content.Description
    Image := content.Image
    Tags := content.Tags
    Status := content.Status
    CategoryID := content.CategoryID
    CreatedByID := content.CreatedByID
    CreatedAt := d.Format content.CreatedAt
    CategoryName := content.Category.Title
    Author := content.User.Name }

/-- Handler `GetContentWithQuery`, the public listing. -/
def GetContentWithQuery (d : Deps) (g : DefaultSuccessResponse) (c : Ctx) : Reply :=
  match (if c.Query "page".toList ≠ [] then d.StringToInt (c.Query "page".toList) else .ok 1) with
  | .error _ => fail StatusBadRequest "Invalid page number".toList []
  | .ok page =>
  match (if c.Query "limit".toList ≠ [] then d.StringToInt (c.Query "limit".toList) else .ok 6) with
  | .error _ => fail StatusBadRequest "Invalid limit number".toList []
  | .ok limit =>
  let orderBy := if c.Query "orderBy".toList ≠ [] then c.Query "orderBy".toList else "created_at".toList
  let orderType := if c.Query "orderType".toList ≠ [] then c.Query "orderType".toList else "desc".toList
  let search := c.Query "search".toList
  match (if c.Query "categoryID".toList ≠ [] then d.StringToInt (c.Query "categoryID".toList)
         else .ok 0) with
  | .error _ => fail StatusBadRequest "Invalid categoryID number".toList []
  | .ok categoryID =>
  let reqEntity : QueryString :=
    { Limit := limit
      Page := page
      OrderBy := orderBy
      OrderType := orderType
      Search := search
      Status := "PUBLISH".toList
      CategoryID := categoryID }
  match d.contentService.GetContents reqEntity with
  | .error err => fail StatusBadRequest err [.GetContents reqEntity]
  | .ok (results, totalData, totalPages) =>
    let respContents := results.map (toResponse d)
    ⟨StatusOK,
     .success { g with
       Status := true
       Message := "Success".toList
       Data := .contents respContents
       Pagination := some
         { TotalRecords := totalData, Page := page, PerPage := limit, TotalPages := totalPages } },
     [.GetContents reqEntity]⟩

/-- Handler `GetContents`, the listing of the administration. -/
def GetContents (d : Deps) (g : DefaultSuccessResponse) (c : Ctx) : Reply :=
  if c.user.UserID = 0 then fail StatusUnauthorized "Unauthorized".toList [] else
  match (if c.Query "page".toList ≠ [] then d.StringToInt (c.Query "page".toList) else .ok 1) with
  | .error _ => fail StatusBadRequest "Invalid page number".toList []
  | .ok page =>
  match (if c.Query "limit".toList ≠ [] then d.StringToInt (c.Query "limit".toList) else .ok 10) with
  | .error _ => fail StatusBadRequest "Invalid limit number".toList []
  | .ok limit =>
  let orderBy := if c.Query "orderBy".toList ≠ [] then c.Query "orderBy".toList else "created_at".toList
  let orderType := if c.Query "orderType".toList ≠ [] then c.Query "orderType".toList else "desc".toList
  let search := c.Query "search".toList
  match (if c.Query "categoryID".toList ≠ [] then d.StringToInt (c.Query "categoryID".toList)
         else .ok 0) with
  | .error _ => fail StatusBadRequest "Invalid categoryID number".toList []
  | .ok categoryID =>
  let reqEntity : QueryString :=
    { Limit := limit
      Page := page
      OrderBy := orderBy
      OrderType := orderType
      Search := search
      Status := []
      CategoryID := categoryID }
  match d.contentService.GetContents reqEntity with
  | .error err => fail StatusBadRequest err [.GetContents reqEntity]
  | .ok (results, totalData, totalPages) =>
    let respContents := results.map (toResponse d)
    ⟨StatusOK,
     .success { g with
       Status := true
       Message := "Success".toList
       Data := .contents respContents
       Pagination := some
         { TotalRecords := totalData, Page := 1, PerPage := (respContents.length : Int),
           TotalPages := totalPages } },
     [.GetContents reqEntity]⟩

/-- Handler `CreateContent`. -/
def CreateContent (d : Deps) (g : DefaultSuccessResponse) (c : Ctx) : Reply :=
  if c.user.UserID = 0 then fail StatusUnauthorized "Unauthorized".toList [] else
  let userID := c.user.UserID
  match d.BodyParser c.Body with
  | .error _ => fail StatusBadRequest "Invalid request body".toList [.BodyParser]
  | .ok req =>
  match d.ValidateStruct req with
  | some msg => fail StatusBadRequest msg [.BodyParser, .ValidateStruct]
  | none =>
  let tags := strings.Split req.Tags comma
  let reqEntity : ContentEntity :=
    { ID := 0
      Title := req.Title
      Excerpt := req.Excerpt
      Description := req.Description
      Image := req.Image
      Tags := tags
      Status := req.Status
      CategoryID := req.CategoryID
      CreatedByID := userID
      CreatedAt := 0
      Category := ⟨0, [], []⟩
      User := ⟨0, []⟩ }
  match d.contentService.CreateContent reqEntity with
  | some err =>
    fail StatusInternalServerError err [.BodyParser, .ValidateStruct, .CreateContent reqEntity]
  | none =>
    ⟨StatusCreated,
     .success { g with
       Status := true, Message := "Content created successfully".toList, Data := .null },
     [.BodyParser, .ValidateStruct, .CreateContent reqEntity]⟩

/-- Handler `DeleteContent`. -/
def DeleteContent (d : Deps) (g : DefaultSuccessResponse) (c : Ctx) : Reply :=
  if c.user.UserID = 0 then fail StatusUnauthorized "Unauthorized".toList [] else
  let idParam := c.Params "contentID".toList
  match d.StringToInt64 idParam with
  | .error err => fail StatusBadRequest err [.Params "contentID".toList]
  | .ok id =>
  match d.contentService.DeleteContent id with
  | some err =>
    fail StatusInternalServerError err [.Params "contentID".toList, .DeleteContent id]
  | none =>
    ⟨StatusOK,
     .success { g with Status := true, Message := "Success".toList, Data := .null },
     [.Params "contentID".toList, .DeleteContent id]⟩

/-- Handler `EditContentByID`. -/
def EditContentByID (d : Deps) (g : DefaultSuccessResponse) (c : Ctx) : Reply :=
  if c.user.UserID = 0 then fail StatusUnauthorized "Unauthorized".toList [] else
  let userID := c.user.UserID
  match d.BodyParser c.Body with
  | .error _ => fail StatusBadRequest "Invalid request body".toList [.BodyParser]
  | .ok req =>
  match d.ValidateStruct req with
  | some msg => fail StatusBadRequest msg [.BodyParser, .ValidateStruct]
  | none =>
  let idParam := c.Params "contentID".toList
  match d.StringToInt64 idParam with
  | .error err =>
    fail StatusBadRequest err [.BodyParser, .ValidateStruct, .Params "contentID".toList]
  | .ok id =>
  let tags := strings.Split req.Tags comma
  let reqEntity : ContentEntity :=
    { ID := id
      Title := req.Title
      Excerpt := req.Excerpt
      Description := req.Description
      Image := req.Image
      Tags := tags
      Status := req.Status
      CategoryID := req.CategoryID
      CreatedByID := userID
      CreatedAt := 0
      Category := ⟨0, [], []⟩
      User := ⟨0, []⟩ }
  match d.contentService.EditContentByID reqEntity with
  | some err =>
    fail StatusInternalServerError err
      [.BodyParser, .ValidateStruct, .Params "contentID".toList, .EditContentByID reqEntity]
  | none =>
    ⟨StatusOK,
     .success { g with
       Status := true, Message := "Content updated successfully".toList, Data := .null },
     [.BodyParser, .ValidateStruct, .Params "contentID".toList, .EditContentByID reqEntity]⟩

/-- Handler `GetContentByID`. -/
def GetContentByID (d : Deps) (g : DefaultSuccessResponse) (c : Ctx) : Reply :=
  if c.user.UserID = 0 then fail StatusUnauthorized "Unauthorized".toList [] else
  let idParam := c.Params "contentID".toList
  match d.StringToInt64 idParam with
  | .error err => fail StatusBadRequest err [.Params "contentID".toList]
  | .ok id =>
  match d.contentService.GetContentByID id with
  | .error err =>
    fail StatusInternalServerError err [.Params "contentID".toList, .GetContentByID id]
  | .ok result =>
    ⟨StatusOK,
     .success { g with
       Status := true, Message := "Success".toList, Data := .content (toResponse d result) },
     [.Params "contentID".toList, .GetContentByID id]⟩

/-- Handler `GetContentDetail`, the public reading of one content. -/
def GetContentDetail (d : Deps) (g : DefaultSuccessResponse) (c : Ctx) : Reply :=
  let idParam := c.Params "contentID".toList
  match d.StringToInt64 idParam with
  | .error err => fail StatusBadRequest err [.Params "contentID".toList]
  | .ok id =>
  match d.contentService.GetContentByID id with
  | .error err =>
    fail StatusInternalServerError err [.Params "contentID".toList, .GetContentByID id]
  | .ok result =>
    ⟨StatusOK,
     .success { g with
       Status := true, Message := "Success".toList, Data := .content (toResponse d result) },
     [.Params "contentID".toList, .GetContentByID id]⟩

/-- Go `fmt.Sprintf("%d", i)`. -/
def formatInt (i : Int) : Str :=
  if i < 0 then '-' :: Nat.toDigits 10 i.natAbs else Nat.toDigits 10 i.toNat

/-- The path under which `UploadImageR2` stages an uploaded file. -/
def stagedPath (file : FileHeader) : Str := "./temp/content/".toList ++ file.Filename

/-- Go `c.SaveFile(file, path)`. -/
def SaveFile (w : World) (file : FileHeader) (path : Str) : Option Str × World :=
  match w.fault .SaveFile with
  | some err => (some err, w)
  | none => (none, os.write w path file.Content)

/-- Handler `UploadImageR2`; it works on the local files and, through the
service, on the object store. -/
def UploadImageR2 (d : Deps) (g : DefaultSuccessResponse) (c : Ctx) (w : World) :
    Reply × World :=
  if c.user.UserID = 0 then (fail StatusUnauthorized "Unauthorized".toList [], w) else
  match c.FormFile "image".toList with
  | .error err => (fail StatusBadRequest err [.FormFile "image".toList], w)
  | .ok file =>
  match SaveFile w file (stagedPath file) with
  | (some err, w1) =>
    (fail StatusBadRequest err [.FormFile "image".toList, .SaveFile (stagedPath file)], w1)
  | (none, w1) =>
  let image := stagedPath file
  let reqEntity : FileUploadEntity :=
    { Name := formatInt c.user.UserID ++ "-".toList ++ formatInt w1.now
      Path := image }
  match d.contentService.UploadImageR2 reqEntity w1 with
  | (.error err, w2) =>
    (fail StatusInternalServerError err
      [.FormFile "image".toList, .SaveFile image, .UploadImageR2 reqEntity], w2)
  | (.ok imageUrl, w2) =>
  if image ≠ [] then
    match os.Remove w2 image with
    | (some err, w3) =>
      (fail StatusInternalServerError err
        [.FormFile "image".toList, .SaveFile image, .UploadImageR2 reqEntity, .Remove image], w3)
    | (none, w3) =>
      (⟨StatusCreated,
        .success { g with Status := true, Message := "Success".toList, Data := .urlImage imageUrl },
        [.FormFile "image".toList, .SaveFile image, .UploadImageR2 reqEntity, .Remove image]⟩, w3)
  else
    (⟨StatusCreated,
      .success { g with Status := true, Message := "Success".toList, Data := .urlImage imageUrl },
      [.FormFile "image".toList, .SaveFile image, .UploadImageR2 reqEntity]⟩, w2)

end handler

/-! ## Example data -/

namespace sample

open repository

/-- A published row of category 1 by user 1, without excerpt, description,
image or tags, created at instant `id`. -/
def row (id : Int) (title : Str) : model.Content :=
  { ID := id
    Title := title
    Excerpt := []
    Description := []
    Image := []
    Tags := []
    Status := "PUBLISH".toList
    CategoryID := 1
    CreatedByID := 1
    CreatedAt := id
    Category := ⟨0, [], []⟩
    User := ⟨0, []⟩ }

/-- A store of three rows; it orders by creation time, newest first, for a
descending clause and oldest first otherwise, and no statement fails. -/
def db : DB :=
  { contents := [row 1 "Go basics".toList, row 2 "Rust intro".toList, row 3 "Go advanced".toList]
    categories := [⟨1, "Tech".toList, "tech".toList⟩]
    users := [⟨1, "admin".toList⟩]
    nextID := 4
    now := 4
    orderLE := fun order a b =>
      if order = "created_at DESC".toList ∨ order = "created_at desc".toList
      then decide (b.CreatedAt ≤ a.CreatedAt) else decide (a.CreatedAt ≤ b.CreatedAt)
    collation := sql.Collation.C
    fault := fun _ => none }

/-- A case folding that knows one accented letter beside the letters `A` to
`Z`: `É` becomes `é`. -/
def french : sql.Collation where
  lower := fun c => if c = 'É' then 'é' else sql.Collation.C.lower c
  lower_pattern := by
    intro c hc
    have h : c ≠ 'É' := by
      intro e
      subst e
      exact hc (by decide)
    simp only [h, if_false]
    exact sql.Collation.C.lower_pattern c hc
  lower_plain := by
    intro c hc
    by_cases h : c = 'É'
    · simp only [h, if_true]
      decide
    · simp only [h, if_false]
      exact sql.Collation.C.lower_plain c hc

/-- A store with one row, under the French case folding. -/
def dbFrench : DB :=
  { db with contents := [row 1 "École de Go".toList], collation := french }

/-- A store of two rows with the tags fields `a` and `b`. -/
def dbTagged : DB :=
  { db with contents := [{ row 7 "Go basics".toList with Tags := "a".toList },
                         { row 8 "Rust intro".toList with Tags := "b".toList }] }

/-- A content to create, with two tags. -/
def content : entity.ContentEntity :=
  { ID := 0
    Title := "Lean".toList
    Excerpt := []
    Description := []
    Image := []
    Tags := ["go".toList, "news".toList]
    Status := "PUBLISH".toList
    CategoryID := 1
    CreatedByID := 1
    CreatedAt := 0
    Category := ⟨0, [], []⟩
    User := ⟨0, []⟩ }

/-- An R2 adapter. -/
def r2 : cloudflare.cloudflareR2Adapter :=
  { Bucket := "bwanews".toList, BaseUrl := "https://cdn.example".toList, ExpiresAt := 1 }

/-- A content service that lists and reads from the sample store, accepts every
mutation and uploads through the sample adapter. -/
def service : handler.ContentService :=
  { GetContents := fun query => repository.GetContents db query
    CreateContent := fun _ => none
    EditContentByID := fun _ => none
    DeleteContent := fun _ => none
    GetContentByID := fun id => repository.GetContentByID db id
    UploadImageR2 := fun req w => cloudflare.UploadImage r2 req w }

/-- A request body as parsed. -/
def request : handler.ContentRequest :=
  { Title := "Lean".toList
    Excerpt := []
    Description := []
    Image := []
    Tags := "go,news".toList
    Status := "PUBLISH".toList
    CategoryID := 1 }

/-- Collaborators: the decimal conversions, a body parser that yields the
sample request, a validator that accepts, and the sample service. -/
def deps : handler.Deps :=
  { StringToInt := conv.StringToInt
    StringToInt64 := conv.StringToInt
    BodyParser := fun _ => .ok request
    ValidateStruct := fun _ => none
    Format := fun _ => []
    contentService := service }

/-- The success response before any request. -/
def g0 : handler.DefaultSuccessResponse := ⟨false, [], .null, none⟩

/-- A request of the identity `userID` with the given query parameters. -/
def ctx (userID : Int) (query : List (Str × Str)) : handler.Ctx :=
  { user := ⟨userID⟩
    Query := fun key => (query.lookup key).getD []
    Params := fun _ => "7".toList
    Body := []
    FormFile := fun _ => .ok ⟨"cat.jpg".toList, "JFIF".toList⟩ }

/-- A content service whose every call fails. -/
def failing : handler.ContentService :=
  { GetContents := fun _ => .error "connection refused".toList
    CreateContent := fun _ => some "connection refused".toList
    EditContentByID := fun _ => some "connection refused".toList
    DeleteContent := fun _ => some "connection refused".toList
    GetContentByID := fun _ => .error "connection refused".toList
    UploadImageR2 := fun _ w => (.error "connection refused".toList, w) }

/-- The sample collaborators around the failing service. -/
def depsFailing : handler.Deps := { deps with contentService := failing }

/-- A world with no local file and no remote object, in which no operation
fails on its own. -/
def world : World :=
  { files := [], objects := [], now := 1700000000000000000, fault := fun _ => none }

/-- The sample world with a failing object store. -/
def worldPutFails : World :=
  { world with fault := fun s => if s = .PutObject then some "put failed".toList else none }

end sample

/-! ## Theorems: the tag codec -/

section codec

open strings

theorem splitAux_nil (cur : Str) : splitAux comma [] 0 cur = [cur.reverse] := rfl

theorem splitAux_comma (rest cur : Str) :
    splitAux comma (',' :: rest) 0 cur = cur.reverse :: splitAux comma rest 0 [] := by
  simp [splitAux, comma]

theorem splitAux_other (c : Char) (rest cur : Str) (h : c ≠ ',') :
    splitAux comma (c :: rest) 0 cur = splitAux comma rest 0 (c :: cur) := by
  have h2 : ¬ (',' = c) := fun e => h e.symm
  simp [splitAux, comma, h2]

/-- A piece without delimiter is read whole into the accumulator. -/
theorem splitAux_piece (t rest cur : Str) (h : ',' ∉ t) :
    splitAux comma (t ++ rest) 0 cur = splitAux comma rest 0 (t.reverse ++ cur) := by
  induction t generalizing cur with
  | nil => rfl
  | cons c t ih =>
    have hc : c ≠ ',' := fun e => h (by simp [e])
    have ht : ',' ∉ t := fun e => h (List.mem_cons_of_mem _ e)
    rw [List.cons_append, splitAux_other c _ _ hc, ih _ ht]
    simp

theorem Split_comma (s : Str) : Split s comma = splitAux comma s 0 [] := by
  simp [Split, comma]

theorem Split_Join (tags : List Str) (hne : tags ≠ []) (hc : ∀ t ∈ tags, ',' ∉ t) :
    Split (Join tags comma) comma = tags := by
  rw [Split_comma]
  induction tags with
  | nil => exact absurd rfl hne
  | cons t ts ih =>
    cases ts with
    | nil =>
      have ht : ',' ∉ t := hc t (by simp)
      have := splitAux_piece t [] [] ht
      simp only [List.append_nil] at this
      simp [Join, this, splitAux_nil]
    | cons b rest =>
      have ht : ',' ∉ t := hc t (by simp)
      have ih2 := ih (by simp) (fun x hx => hc x (List.mem_cons_of_mem _ hx))
      have e : Join (t :: b :: rest) comma = t ++ (',' :: Join (b :: rest) comma) := by
        simp [Join, comma]
      rw [e, splitAux_piece t _ [] ht, splitAux_comma, ih2]
      simp

end codec

/-! ## Theorems: SQL patterns -/

namespace sql

theorem likeFrom_cons (c : Char) (p t : Str) :
    likeFrom (c :: p) false t =
      if c = '%' then t.tails.any (fun u => likeFrom p false u)
      else if c = '\\' then likeFrom p true t
      else
        match t with
        | [] => false
        | d :: u => (c == '_' || d == c) && likeFrom p false u := rfl

theorem like_any (p t : Str) :
    like ('%' :: p) t = true ↔ ∃ u, u <:+ t ∧ like p u = true := by
  unfold like
  rw [likeFrom_cons, if_pos rfl]
  simp only [List.any_eq_true, List.mem_tails]

theorem like_plain (c : Char) (p t : Str) (hc : plain c) :
    like (c :: p) t = true ↔ ∃ u, t = c :: u ∧ like p u = true := by
  obtain ⟨h1, h2, h3⟩ := hc
  unfold like
  rw [likeFrom_cons]
  simp only [h1, h3, if_false]
  cases t with
  | nil => simp
  | cons d u =>
    simp only [Bool.and_eq_true, Bool.or_eq_true, beq_iff_eq, h2, false_or, List.cons.injEq]
    constructor
    · rintro ⟨rfl, h⟩; exact ⟨u, ⟨rfl, rfl⟩, h⟩
    · rintro ⟨v, ⟨rfl, rfl⟩, h⟩; exact ⟨rfl, h⟩

theorem like_plains (s p t : Str) (hs : ∀ c ∈ s, plain c) :
    like (s ++ p) t = true ↔ ∃ u, t = s ++ u ∧ like p u = true := by
  induction s generalizing t with
  | nil => simp
  | cons c s ih =>
    rw [List.cons_append, like_plain c _ _ (hs c (by simp))]
    constructor
    · rintro ⟨u, rfl, h⟩
      obtain ⟨v, rfl, hv⟩ := (ih u (fun x hx => hs x (List.mem_cons_of_mem _ hx))).mp h
      exact ⟨v, rfl, hv⟩
    · rintro ⟨v, rfl, hv⟩
      exact ⟨s ++ v, rfl, (ih _ (fun x hx => hs x (List.mem_cons_of_mem _ hx))).mpr ⟨v, rfl, hv⟩⟩

theorem like_percent (u : Str) : like ['%'] u = true := by
  rw [like_any]
  exact ⟨[], List.nil_suffix, rfl⟩

/-- A pattern `%s%` without wildcard in `s` matches the texts containing `s`. -/
theorem like_contains (s t : Str) (hs : ∀ c ∈ s, plain c) :
    like ('%' :: (s ++ ['%'])) t = true ↔ s <:+: t := by
  rw [like_any]
  constructor
  · rintro ⟨u, hu, h⟩
    obtain ⟨v, rfl, -⟩ := (like_plains s _ u hs).mp h
    obtain ⟨w, rfl⟩ := hu
    exact ⟨w, v, by simp⟩
  · rintro ⟨w, v, rfl⟩
    refine ⟨s ++ v, ⟨w, by simp⟩, (like_plains s _ _ hs).mpr ⟨v, rfl, like_percent v⟩⟩

theorem lower_plain (k : Collation) (s : Str) (hs : ∀ c ∈ s, plain c) :
    ∀ c ∈ lower k s, plain c := by
  intro c hc
  simp only [lower, List.mem_map] at hc
  obtain ⟨d, hd, rfl⟩ := hc
  exact k.lower_plain d (hs d hd)

theorem ilike_contains (k : Collation) (s t : Str) (hs : ∀ c ∈ s, plain c) :
    ilike k ('%' :: (s ++ ['%'])) t = true ↔ lower k s <:+: lower k t := by
  unfold ilike
  have hp : k.lower '%' = '%' := k.lower_pattern '%' (by decide)
  have e : lower k ('%' :: (s ++ ['%'])) = '%' :: (lower k s ++ ['%']) := by
    simp [lower, hp]
  rw [e, like_contains _ _ (lower_plain k s hs)]

end sql

/-! ### C1, C2 -/

section tags

open repository

theorem GetContentByID_of_find (db : DB) (id : Int) (m : model.Content)
    (hf : db.fault .first = none) (hm : db.contents.find? (fun m => m.ID == id) = some m) :
    GetContentByID db id = .ok (toEntity (preload db m)) := by
  simp [GetContentByID, hf, hm]

/-- C1. Tag codec round trip: for a non-empty sequence of tags none of which
contains `,`, splitting on `,` the join with `,` gives back the sequence; so a
content created with these tags in a store where no statement fails and the
new key is fresh is read back by `GetContentByID` with the same tags. -/
theorem tag_codec_round_trip (tags : List Str) (hne : tags ≠ [])
    (hc : ∀ t ∈ tags, ',' ∉ t) :
    strings.Split (strings.Join tags comma) comma = tags ∧
    ∀ (db : DB) (req : entity.ContentEntity), req.Tags = tags →
      db.fault .create = none → db.fault .first = none →
      (∀ m ∈ db.contents, m.ID ≠ db.nextID) →
      ∃ db1 e, CreateContent db req = .ok db1 ∧
        GetContentByID db1 db.nextID = .ok e ∧ e.Tags = tags := by
  refine ⟨Split_Join tags hne hc, ?_⟩
  intro db req hreq hcreate hfirst hfresh
  let r : model.Content := { toModel req with ID := db.nextID, CreatedAt := db.now }
  let db1 : DB := { db with contents := db.contents ++ [r], nextID := db.nextID + 1 }
  have hnone : db.contents.find? (fun m => m.ID == db.nextID) = none := by
    rw [List.find?_eq_none]
    intro m hm
    simpa using hfresh m hm
  have hfind : db1.contents.find? (fun m => m.ID == db.nextID) = some r := by
    simp [db1, r, List.find?_append, hnone]
  refine ⟨db1, toEntity (preload db1 r), ?_, GetContentByID_of_find db1 _ r hfirst hfind, ?_⟩
  · simp only [CreateContent, hcreate]
  · simp only [toEntity, preload, toModel, hreq, r]
    exact Split_Join tags hne hc

theorem tag_codec_round_trip_witness :
    strings.Split (strings.Join sample.content.Tags comma) comma = sample.content.Tags ∧
    ∃ db1 e, CreateContent sample.db sample.content = .ok db1 ∧
      GetContentByID db1 sample.db.nextID = .ok e ∧ e.Tags = sample.content.Tags :=
  have h := tag_codec_round_trip sample.content.Tags (by decide) (by decide)
  ⟨h.1, h.2 sample.db sample.content rfl rfl rfl (by decide)⟩

/-- When neither the count nor the page query fails, the repository
`GetContents` returns: the page of the ordered matching rows, each preloaded
and decoded, with the number of matching rows and of pages. -/
theorem GetContents_ok (db : DB) (query : entity.QueryString)
    (hc : db.fault .count = none) (hf : db.fault .find = none) :
    GetContents db query = .ok
      (((limitOffset (applyDefaults query).Limit (offsetOf (applyDefaults query))
          (db.orderBy (orderOf (applyDefaults query))
            (db.contents.filter (sqlMain db (applyDefaults query))))).map (preload db)).map
          toEntity,
        ((db.contents.filter (sqlMain db (applyDefaults query))).length : Int),
        totalPages (db.contents.filter (sqlMain db (applyDefaults query))).length
          (applyDefaults query).Limit) := by
  unfold GetContents
  simp only [hc, hf]

/-- The first page holds every matching row when there are no more of them than
the limit. -/
theorem first_page_all (db : DB) (query : entity.QueryString)
    (hp : (applyDefaults query).Page = 1)
    (hl : ((db.contents.filter (sqlMain db (applyDefaults query))).length : Int)
      ≤ (applyDefaults query).Limit) :
    limitOffset (applyDefaults query).Limit (offsetOf (applyDefaults query))
        (db.orderBy (orderOf (applyDefaults query))
          (db.contents.filter (sqlMain db (applyDefaults query))))
      = db.orderBy (orderOf (applyDefaults query))
          (db.contents.filter (sqlMain db (applyDefaults query))) := by
  have hoff : offsetOf (applyDefaults query) = 0 := by
    unfold offsetOf
    rw [hp]
    simp [wrapInt64]
  have hlen : (db.orderBy (orderOf (applyDefaults query))
      (db.contents.filter (sqlMain db (applyDefaults query)))).length
      = (db.contents.filter (sqlMain db (applyDefaults query))).length := by
    unfold DB.orderBy
    exact List.length_insertionSort _ _
  unfold limitOffset
  rw [hoff]
  simp only [gt_iff_lt, lt_self_iff_false, if_false]
  have h0 : (applyDefaults query).Limit ≥ 0 := by omega
  rw [if_pos h0]
  apply List.take_of_length_le
  rw [hlen]
  omega

end tags

/-! ## Theorems: `float64` arithmetic on counts -/

namespace float64

theorem upShift_spec (f : Nat) : ∀ n d : Nat, d * 2 ^ 52 ≤ n * 2 ^ f →
    d * 2 ^ 52 ≤ n * 2 ^ upShift f n d ∧
    (upShift f n d = 0 ∨ n * 2 ^ upShift f n d < d * 2 ^ 53) := by
  induction f with
  | zero => intro n d h; simpa [upShift] using h
  | succ f ih =>
    intro n d h
    unfold upShift
    split
    · rename_i hlt
      have h2 : d * 2 ^ 52 ≤ 2 * n * 2 ^ f := by
        have e2 : n * 2 ^ (f + 1) = 2 * n * 2 ^ f := by ring
        rw [e2] at h; exact h
      obtain ⟨h3, h4⟩ := ih (2 * n) d h2
      have e : n * 2 ^ (upShift f (2 * n) d + 1) = 2 * n * 2 ^ upShift f (2 * n) d := by
        ring
      rw [e]
      refine ⟨h3, Or.inr ?_⟩
      rcases h4 with h4 | h4
      · rw [h4]; omega
      · exact h4
    · rename_i hge
      simp only [pow_zero, mul_one, true_or, and_true]
      omega

theorem upShift_eq_zero (f n d : Nat) (h : d * 2 ^ 52 ≤ n) : upShift f n d = 0 := by
  cases f with
  | zero => rfl
  | succ f => unfold upShift; rw [if_neg (by omega)]

theorem downShift_eq_zero (f n d : Nat) (h : n < d * 2 ^ 53) : downShift f n d = 0 := by
  cases f with
  | zero => rfl
  | succ f => unfold downShift; rw [if_neg (by omega)]


theorem ofInt_small (a : Nat) (h0 : 0 < a) (h : a < 2 ^ 53) :
    ∃ u : Nat, ofInt a = ⟨a * 2 ^ u, -(u : Int)⟩ := by
  have hw : downShift 256 a 1 = 0 := downShift_eq_zero 256 a 1 (by omega)
  refine ⟨upShift 256 a 1, ?_⟩
  unfold ofInt roundNE
  rw [if_neg (by omega)]
  simp [hw, Nat.mod_one]

theorem ofInt_zero : ofInt 0 = ⟨0, 0⟩ := rfl

theorem roundNE_zero (d : Nat) : roundNE 0 d = ⟨0, 0⟩ := by simp [roundNE]

/-- Rounding of `(a * C) / (b * C)` for `b < 2 ^ 53` and a quotient below
`2 ^ 53`. -/
theorem roundNE_scaled (a b C : Nat) (ha : 0 < a) (hb : 0 < b) (hC : 0 < C)
    (ha2 : a < b * 2 ^ 53) (hb2 : b < 2 ^ 53) :
    ∃ u M : Nat, roundNE (a * C) (b * C) = ⟨M, -(u : Int)⟩ ∧
      2 ^ 52 * b ≤ a * 2 ^ u ∧ 2 * (M * b - a * 2 ^ u) ≤ b ∧ 2 * (a * 2 ^ u - M * b) ≤ b := by
  have hw : downShift 256 (a * C) (b * C) = 0 := by
    apply downShift_eq_zero
    calc a * C < b * 2 ^ 53 * C := Nat.mul_lt_mul_of_pos_right ha2 hC
      _ = b * C * 2 ^ 53 := by ring
  have hfuel : b * C * 2 ^ 52 ≤ a * C * 2 ^ 256 := by
    have h1 : b * 2 ^ 52 ≤ a * 2 ^ 256 := by
      have : b * 2 ^ 52 ≤ 2 ^ 53 * 2 ^ 52 := Nat.mul_le_mul_right _ (by omega)
      have : 2 ^ 53 * 2 ^ 52 ≤ 1 * 2 ^ 256 := by norm_num
      have : 1 * 2 ^ 256 ≤ a * 2 ^ 256 := Nat.mul_le_mul_right _ ha
      omega
    calc b * C * 2 ^ 52 = b * 2 ^ 52 * C := by ring
      _ ≤ a * 2 ^ 256 * C := Nat.mul_le_mul_right _ h1
      _ = a * C * 2 ^ 256 := by ring
  obtain ⟨hu, -⟩ := upShift_spec 256 (a * C) (b * C) hfuel
  have hne : a * C ≠ 0 := Nat.mul_ne_zero (by omega) (by omega)
  unfold roundNE
  rw [if_neg hne]
  simp only [hw, pow_zero, mul_one, Nat.cast_zero, zero_sub]
  generalize upShift 256 (a * C) (b * C) = u at hu
  have hu2 : 2 ^ 52 * b ≤ a * 2 ^ u := by
    have : (2 ^ 52 * b) * C ≤ (a * 2 ^ u) * C := by
      calc (2 ^ 52 * b) * C = b * C * 2 ^ 52 := by ring
        _ ≤ a * C * 2 ^ u := hu
        _ = (a * 2 ^ u) * C := by ring
    exact Nat.le_of_mul_le_mul_right this hC
  have e1 : a * C * 2 ^ u = (a * 2 ^ u) * C := by ring
  rw [e1, Nat.mul_div_mul_right _ _ hC, Nat.mul_mod_mul_right]
  have hc1 : ∀ N, (2 * (N % b * C) < b * C) ↔ 2 * (N % b) < b := by
    intro N
    rw [← Nat.mul_assoc]
    exact Nat.mul_lt_mul_right hC
  have hc2 : ∀ N, (b * C < 2 * (N % b * C)) ↔ b < 2 * (N % b) := by
    intro N
    rw [← Nat.mul_assoc]
    exact Nat.mul_lt_mul_right hC
  simp only [hc1, hc2]
  refine ⟨u, _, rfl, hu2, ?_⟩
  generalize a * 2 ^ u = N
  have hdm := Nat.div_add_mod N b
  have hr := Nat.mod_lt N hb
  have hq1 : (N / b + 1) * b = b * (N / b) + b := by ring
  have hq0 : N / b * b = b * (N / b) := by ring
  split_ifs <;> simp only [hq1, hq0] <;> omega


theorem ceil_key (a b u M : Nat) (hb : 0 < b) (ha2 : a ≤ 2 ^ 53)
    (h1 : 2 ^ 52 * b ≤ a * 2 ^ u) (h2 : 2 * (M * b - a * 2 ^ u) ≤ b)
    (h3 : 2 * (a * 2 ^ u - M * b) ≤ b) :
    (M + 2 ^ u - 1) / 2 ^ u = (a + b - 1) / b := by
  have hP : 0 < 2 ^ u := Nat.pow_pos (by norm_num)
  generalize 2 ^ u = P at *
  have hK1 : (a + b - 1) / b * b ≤ a + b - 1 := Nat.div_mul_le_self _ _
  have hK2 : a + b - 1 < b * ((a + b - 1) / b + 1) := Nat.lt_mul_div_succ _ hb
  generalize (a + b - 1) / b = K at *
  obtain ⟨b1, rfl⟩ : ∃ b1, b = b1 + 1 := ⟨b - 1, by omega⟩
  have hK1' : K * (b1 + 1) ≤ a + b1 := by simpa using hK1
  have hK2' : a ≤ K * (b1 + 1) := by
    have : (b1 + 1) * (K + 1) = K * (b1 + 1) + (b1 + 1) := by ring
    omega
  apply Nat.div_eq_of_lt_le
  · -- lower bound
    by_contra hlo
    have hlo2 : M + P ≤ K * P := by omega
    have e1 : (M + P) * (b1 + 1) ≤ K * P * (b1 + 1) := Nat.mul_le_mul_right _ hlo2
    have e2 : K * (b1 + 1) * P ≤ (a + b1) * P := Nat.mul_le_mul_right _ hK1'
    have e3 : M * (b1 + 1) + P ≤ a * P := by
      have x1 : (M + P) * (b1 + 1) = M * (b1 + 1) + P + b1 * P := by ring
      have x2 : K * P * (b1 + 1) = K * (b1 + 1) * P := by ring
      have x3 : (a + b1) * P = a * P + b1 * P := by ring
      omega
    have e4 : 2 * P ≤ b1 + 1 := by omega
    have e5 : 2 ^ 52 * (2 * P) ≤ 2 ^ 52 * (b1 + 1) := Nat.mul_le_mul_left _ e4
    have e6 : 2 ^ 53 * P ≤ a * P := by
      have : 2 ^ 52 * (2 * P) = 2 ^ 53 * P := by ring
      omega
    have e7 : 2 ^ 53 ≤ a := Nat.le_of_mul_le_mul_right e6 hP
    have ea : a = 2 ^ 53 := by omega
    subst ea
    have eb : b1 + 1 = 2 * P := by omega
    have eM : M * (b1 + 1) = 2 * (M * P) := by rw [eb]; ring
    have e8 : 2 * M * P = (2 ^ 53 - 1) * P := by
      have x4 : 2 * M * P = 2 * (M * P) := by ring
      have x5 : (2 ^ 53 - 1) * P + P = 2 ^ 53 * P := by
        have : (2 ^ 53 - 1 + 1) * P = (2 ^ 53 - 1) * P + P := by ring
        simpa using this.symm
      omega
    have e9 : 2 * M = 2 ^ 53 - 1 := Nat.eq_of_mul_eq_mul_right hP e8
    omega
  · -- upper bound
    by_contra hhi
    have hhi2 : K * P + 1 ≤ M := by
      have : (K + 1) * P = K * P + P := by ring
      omega
    have e1 : (K * P + 1) * (b1 + 1) ≤ M * (b1 + 1) := Nat.mul_le_mul_right _ hhi2
    have e2 : a * P ≤ K * (b1 + 1) * P := Nat.mul_le_mul_right _ hK2'
    have x1 : (K * P + 1) * (b1 + 1) = K * (b1 + 1) * P + (b1 + 1) := by ring
    omega


theorem Ceil_neg (M u : Nat) : Ceil ⟨M, -(u : Int)⟩ = (M + 2 ^ u - 1) / 2 ^ u := by
  unfold Ceil
  cases u with
  | zero => simp
  | succ u =>
    have h : ¬ (0 : Int) ≤ -((u + 1 : Nat) : Int) := by omega
    simp only [h, if_false, neg_neg, Int.toNat_ofNat]

theorem ofInt_two_pow_53 : ofInt (2 ^ 53) = ⟨2 ^ 52, 1⟩ := by decide

theorem div_ofInt_scaled_top (b : Nat) (hb : 0 < b) (hb2 : b < 2 ^ 53) :
    ∃ C : Nat, 0 < C ∧ div (ofInt (2 ^ 53)) (ofInt b) = roundNE (2 ^ 53 * C) (b * C) := by
  obtain ⟨ub, hub⟩ := ofInt_small b hb hb2
  rw [ofInt_two_pow_53, hub]
  unfold div
  simp only
  refine ⟨2 ^ ub, Nat.pow_pos (by norm_num), ?_⟩
  have e1 : ((1 : Int) - -(ub : Int)).toNat = 1 + ub := by omega
  have e2 : (-(ub : Int) - 1).toNat = 0 := by omega
  rw [e1, e2, pow_zero, mul_one, pow_add]
  congr 1
  ring

theorem div_ofInt_scaled (a b : Nat) (ha : 0 < a) (hb : 0 < b) (ha2 : a < 2 ^ 53)
    (hb2 : b < 2 ^ 53) :
    ∃ C : Nat, 0 < C ∧ div (ofInt a) (ofInt b) = roundNE (a * C) (b * C) := by
  obtain ⟨ua, hua⟩ := ofInt_small a ha ha2
  obtain ⟨ub, hub⟩ := ofInt_small b hb hb2
  rw [hua, hub]
  unfold div
  simp only
  rcases Nat.le_total ua ub with h | h
  · refine ⟨2 ^ ub, Nat.pow_pos (by norm_num), ?_⟩
    have e1 : (-(ua : Int) - -(ub : Int)).toNat = ub - ua := by omega
    have e2 : (-(ub : Int) - -(ua : Int)).toNat = 0 := by omega
    rw [e1, e2, Nat.mul_assoc, ← pow_add]
    have e3 : ua + (ub - ua) = ub := by omega
    rw [e3, pow_zero, mul_one]
  · refine ⟨2 ^ ua, Nat.pow_pos (by norm_num), ?_⟩
    have e1 : (-(ua : Int) - -(ub : Int)).toNat = 0 := by omega
    have e2 : (-(ub : Int) - -(ua : Int)).toNat = ua - ub := by omega
    rw [e1, e2, Nat.mul_assoc b, ← pow_add]
    have e3 : ub + (ua - ub) = ua := by omega
    rw [e3, pow_zero, mul_one]

/-- For a dividend up to `2 ^ 53` and a divisor below `2 ^ 53` the `float64`
quotient, rounded up, is the exact integer ceiling. -/
theorem Ceil_div_ofInt (a b : Nat) (hb : 0 < b) (ha2 : a ≤ 2 ^ 53) (hb2 : b < 2 ^ 53) :
    Ceil (div (ofInt a) (ofInt b)) = (a + b - 1) / b := by
  rcases Nat.eq_zero_or_pos a with ha | ha
  · subst ha
    have : div (ofInt 0) (ofInt b) = ⟨0, 0⟩ := by
      unfold div
      simp [ofInt_zero, roundNE_zero]
    rw [this]
    have : (0 + b - 1) / b = 0 := Nat.div_eq_of_lt (by omega)
    rw [this]
    simp [Ceil]
  · by_cases htop : a = 2 ^ 53
    · subst htop
      by_cases hb1 : b = 1
      · subst hb1
        decide
      · have hab : 2 ^ 53 < b * 2 ^ 53 := by omega
        obtain ⟨C, hC, hdiv⟩ := div_ofInt_scaled_top b hb hb2
        obtain ⟨u, M, hr, h1, h2, h3⟩ := roundNE_scaled (2 ^ 53) b C ha hb hC hab hb2
        rw [hdiv, hr, Ceil_neg]
        exact ceil_key (2 ^ 53) b u M hb ha2 h1 h2 h3
    · have ha3 : a < 2 ^ 53 := by omega
      have hab : a < b * 2 ^ 53 := by
        have : 1 * 2 ^ 53 ≤ b * 2 ^ 53 := Nat.mul_le_mul_right _ hb
        omega
      obtain ⟨C, hC, hdiv⟩ := div_ofInt_scaled a b ha hb ha3 hb2
      obtain ⟨u, M, hr, h1, h2, h3⟩ := roundNE_scaled a b C ha hb hC hab hb2
      rw [hdiv, hr, Ceil_neg]
      exact ceil_key a b u M hb ha2 h1 h2 h3

theorem downShift_spec (f : Nat) : ∀ n d : Nat, n < d * 2 ^ 53 * 2 ^ f →
    n < d * 2 ^ downShift f n d * 2 ^ 53 ∧
    (downShift f n d = 0 ∨ d * 2 ^ downShift f n d * 2 ^ 52 ≤ n) := by
  induction f with
  | zero => intro n d h; simpa [downShift] using h
  | succ f ih =>
    intro n d h
    unfold downShift
    split
    · rename_i hge
      have h2 : n < 2 * d * 2 ^ 53 * 2 ^ f := by
        have e2 : d * 2 ^ 53 * 2 ^ (f + 1) = 2 * d * 2 ^ 53 * 2 ^ f := by ring
        rw [e2] at h; exact h
      obtain ⟨h3, h4⟩ := ih n (2 * d) h2
      have e : d * 2 ^ (downShift f n (2 * d) + 1) = 2 * d * 2 ^ downShift f n (2 * d) := by
        ring
      rw [e]
      refine ⟨h3, Or.inr ?_⟩
      rcases h4 with h4 | h4
      · rw [h4]; omega
      · exact h4
    · rename_i hlt
      simp only [pow_zero, mul_one, true_or, and_true]
      omega

theorem downShift_pos (f n d : Nat) (h : d * 2 ^ 53 ≤ n) : 0 < downShift (f + 1) n d := by
  unfold downShift
  rw [if_pos h]
  omega

/-- The conversion of an integer from `2 ^ 53` up to `2 ^ 63`: a significand of
53 bits and a positive exponent. -/
theorem ofInt_big (b : Nat) (h1 : 2 ^ 53 ≤ b) (h2 : b < 2 ^ 63) :
    ∃ M w : Nat, ofInt b = ⟨M, (w : Int)⟩ ∧ 2 ^ 52 ≤ M ∧ M ≤ 2 ^ 53 ∧ 1 ≤ w ∧ w ≤ 10 := by
  have hu : upShift 256 b 1 = 0 := upShift_eq_zero 256 b 1 (by omega)
  have hfuel : b < 1 * 2 ^ 53 * 2 ^ 256 := by
    have : (2 : Nat) ^ 63 ≤ 1 * 2 ^ 53 * 2 ^ 256 := by norm_num
    omega
  obtain ⟨hw1, hw2⟩ := downShift_spec 256 b 1 hfuel
  have hwpos : 0 < downShift 256 b 1 := downShift_pos 255 b 1 (by omega)
  have hne : b ≠ 0 := by omega
  unfold ofInt roundNE
  rw [if_neg hne]
  simp only [hu, pow_zero, mul_one, Nat.cast_zero, sub_zero, Nat.one_mul]
  generalize downShift 256 b 1 = w at hw1 hw2 hwpos ⊢
  have hw3 : 1 * 2 ^ w * 2 ^ 52 ≤ b := by
    rcases hw2 with h | h
    · omega
    · exact h
  have hw4 : w ≤ 10 := by
    by_contra hc
    have : (2 : Nat) ^ 11 ≤ 2 ^ w := Nat.pow_le_pow_right (by norm_num) (by omega)
    have : 2 ^ 11 * 2 ^ 52 ≤ 1 * 2 ^ w * 2 ^ 52 := by
      rw [Nat.one_mul]
      exact Nat.mul_le_mul_right _ this
    have : (2 : Nat) ^ 11 * 2 ^ 52 = 2 ^ 63 := by norm_num
    omega
  have hP : 0 < 2 ^ w := Nat.pow_pos (by norm_num)
  rw [Nat.one_mul] at hw1 hw3
  refine ⟨_, w, rfl, ?_, ?_, hwpos, hw4⟩
  all_goals
    generalize 2 ^ w = P at hw1 hw3 hP ⊢
    have hq1 : 2 ^ 52 ≤ b / P := (Nat.le_div_iff_mul_le hP).mpr (by omega)
    have hq2 : b / P < 2 ^ 53 := (Nat.div_lt_iff_lt_mul hP).mpr (by omega)
    split_ifs <;> omega

/-- A quotient that is positive and at most 1 is rounded to a value that is
positive and at most 1. -/
theorem Ceil_roundNE_le_one (n d : Nat) (hn : 0 < n) (hnd : n ≤ d)
    (hfuel : d * 2 ^ 52 ≤ n * 2 ^ 256) : Ceil (roundNE n d) = 1 := by
  have hw : downShift 256 n d = 0 := downShift_eq_zero 256 n d (by omega)
  obtain ⟨hu, -⟩ := upShift_spec 256 n d hfuel
  have hd : 0 < d := by omega
  unfold roundNE
  rw [if_neg (by omega)]
  simp only [hw, pow_zero, mul_one, Nat.cast_zero, zero_sub]
  generalize upShift 256 n d = u at hu
  rw [Ceil_neg]
  have hP : 0 < 2 ^ u := Nat.pow_pos (by norm_num)
  have hN : n * 2 ^ u ≤ d * 2 ^ u := Nat.mul_le_mul_right _ hnd
  generalize 2 ^ u = P at hu hP hN ⊢
  generalize n * P = N at hu hN ⊢
  have hdm := Nat.div_add_mod N d
  have hr := Nat.mod_lt N hd
  have hq1 : 2 ^ 52 ≤ N / d := (Nat.le_div_iff_mul_le hd).mpr (by omega)
  have hq2 : N / d ≤ P := by
    apply Nat.div_le_of_le_mul
    omega
  have hq3 : 0 < N % d → N / d < P := by
    intro hpos
    by_contra hc
    have : P ≤ N / d := by omega
    have : d * P ≤ d * (N / d) := Nat.mul_le_mul_left _ this
    omega
  apply Nat.div_eq_of_lt_le
  · split_ifs <;> omega
  · have e : Nat.succ 1 * P = P + P := by simp [Nat.succ_mul]
    rw [e]
    split_ifs with c1 c2 c3
    · omega
    · have := hq3 (by omega); omega
    · omega
    · have := hq3 (by omega); omega

theorem ofInt_small_bound (a : Nat) (h0 : 0 < a) (h : a < 2 ^ 53) :
    ∃ u : Nat, ofInt a = ⟨a * 2 ^ u, -(u : Int)⟩ ∧ 2 ^ 52 ≤ a * 2 ^ u := by
  have hw : downShift 256 a 1 = 0 := downShift_eq_zero 256 a 1 (by omega)
  have hfuel : 1 * 2 ^ 52 ≤ a * 2 ^ 256 := by
    have : (1 : Nat) * 2 ^ 52 ≤ 1 * 2 ^ 256 := by norm_num
    have : 1 * 2 ^ 256 ≤ a * 2 ^ 256 := Nat.mul_le_mul_right _ h0
    omega
  obtain ⟨hu, -⟩ := upShift_spec 256 a 1 hfuel
  refine ⟨upShift 256 a 1, ?_, by omega⟩
  unfold ofInt roundNE
  rw [if_neg (by omega)]
  simp [hw, Nat.mod_one]

/-- A dividend up to `2 ^ 53` over a divisor from `2 ^ 53` up to `2 ^ 63`: the
quotient is positive and at most 1, and so is its `float64` value. -/
theorem Ceil_div_ofInt_big (a b : Nat) (ha : 0 < a) (ha2 : a ≤ 2 ^ 53) (hb : 2 ^ 53 ≤ b)
    (hb2 : b < 2 ^ 63) : Ceil (div (ofInt a) (ofInt b)) = 1 := by
  obtain ⟨M, w, hofb, hM1, hM2, hw1, hw2⟩ := ofInt_big b hb hb2
  have hPw : (2 : Nat) ^ w ≤ 2 ^ 10 := Nat.pow_le_pow_right (by norm_num) hw2
  by_cases htop : a = 2 ^ 53
  · subst htop
    rw [ofInt_two_pow_53, hofb]
    unfold div
    simp only
    have e1 : ((1 : Int) - (w : Int)).toNat = 0 := by omega
    have e2 : ((w : Int) - 1).toNat = w - 1 := by omega
    rw [e1, e2, pow_zero, mul_one]
    have hP1 : 0 < 2 ^ (w - 1) := Nat.pow_pos (by norm_num)
    have hP2 : (2 : Nat) ^ (w - 1) ≤ 2 ^ 9 := Nat.pow_le_pow_right (by norm_num) (by omega)
    have hd1 : 2 ^ 52 * 1 ≤ M * 2 ^ (w - 1) := Nat.mul_le_mul hM1 hP1
    have hd2 : M * 2 ^ (w - 1) ≤ 2 ^ 53 * 2 ^ 9 := Nat.mul_le_mul hM2 hP2
    apply Ceil_roundNE_le_one
    · norm_num
    · omega
    · have : M * 2 ^ (w - 1) * 2 ^ 52 ≤ 2 ^ 53 * 2 ^ 9 * 2 ^ 52 := Nat.mul_le_mul_right _ hd2
      have : (2 : Nat) ^ 53 * 2 ^ 9 * 2 ^ 52 ≤ 2 ^ 52 * 2 ^ 256 := by norm_num
      omega
  · have ha3 : a < 2 ^ 53 := by omega
    obtain ⟨ua, hofa, hua⟩ := ofInt_small_bound a ha ha3
    rw [hofa, hofb]
    unfold div
    simp only
    have e1 : (-(ua : Int) - (w : Int)).toNat = 0 := by omega
    have e2 : ((w : Int) - -(ua : Int)).toNat = w + ua := by omega
    rw [e1, e2, pow_zero, mul_one, pow_add]
    have hQ : 0 < 2 ^ ua := Nat.pow_pos (by norm_num)
    have hw2' : (2 : Nat) ^ 1 ≤ 2 ^ w := Nat.pow_le_pow_right (by norm_num) hw1
    generalize 2 ^ ua = Q at hua hQ ⊢
    generalize 2 ^ w = P at hPw hw2' ⊢
    have hMP1 : 2 ^ 52 * 2 ^ 1 ≤ M * P := Nat.mul_le_mul hM1 hw2'
    have hMP2 : M * P ≤ 2 ^ 53 * 2 ^ 10 := Nat.mul_le_mul hM2 hPw
    have hd : M * (P * Q) = M * P * Q := by ring
    rw [hd]
    apply Ceil_roundNE_le_one
    · omega
    · have h1 : a * Q ≤ 2 ^ 53 * Q := Nat.mul_le_mul_right _ (by omega)
      have h2 : 2 ^ 52 * 2 ^ 1 * Q ≤ M * P * Q := Nat.mul_le_mul_right _ hMP1
      have h3 : (2 : Nat) ^ 52 * 2 ^ 1 * Q = 2 ^ 53 * Q := by norm_num
      omega
    · have h1 : M * P * Q * 2 ^ 52 ≤ 2 ^ 53 * 2 ^ 10 * Q * 2 ^ 52 :=
        Nat.mul_le_mul_right _ (Nat.mul_le_mul_right _ hMP2)
      have h2 : (2 : Nat) ^ 53 * 2 ^ 10 * Q * 2 ^ 52 = Q * 2 ^ 115 := by ring
      have h3 : Q * 2 ^ 115 ≤ Q * 2 ^ 256 := Nat.mul_le_mul_left _ (by norm_num)
      have h4 : 1 * (Q * 2 ^ 256) ≤ a * (Q * 2 ^ 256) := Nat.mul_le_mul_right _ ha
      have h5 : a * (Q * 2 ^ 256) = a * Q * 2 ^ 256 := by ring
      omega

/-- For at most `2 ^ 53` rows and a positive limit below `2 ^ 63` the `float64`
quotient, rounded up, is the exact integer ceiling. -/
theorem Ceil_div_ofInt_all (a b : Nat) (hb : 0 < b) (ha2 : a ≤ 2 ^ 53) (hb2 : b < 2 ^ 63) :
    Ceil (div (ofInt a) (ofInt b)) = (a + b - 1) / b := by
  by_cases hsmall : b < 2 ^ 53
  · exact Ceil_div_ofInt a b hb ha2 hsmall
  · rcases Nat.eq_zero_or_pos a with ha | ha
    · subst ha
      have : div (ofInt 0) (ofInt b) = ⟨0, 0⟩ := by
        unfold div
        simp [ofInt_zero, roundNE_zero]
      rw [this]
      have : (0 + b - 1) / b = 0 := Nat.div_eq_of_lt (by omega)
      rw [this]
      simp [Ceil]
    · rw [Ceil_div_ofInt_big a b ha ha2 (by omega) hb2]
      symm
      apply Nat.div_eq_of_lt_le <;> omega

end float64

/-! ### C3, C4 -/

section pagination

open repository

theorem applyDefaults_Limit (query : entity.QueryString) :
    (applyDefaults query).Limit = if query.Limit ≤ 0 then 10 else query.Limit := by
  unfold applyDefaults
  simp only
  split_ifs <;> rfl

theorem applyDefaults_Page (query : entity.QueryString) :
    (applyDefaults query).Page = if query.Page ≤ 0 then 1 else query.Page := by
  unfold applyDefaults
  simp only
  split_ifs <;> rfl

theorem applyDefaults_Search (query : entity.QueryString) :
    (applyDefaults query).Search = query.Search := by
  unfold applyDefaults
  simp only
  split_ifs <;> rfl

theorem applyDefaults_Status (query : entity.QueryString) :
    (applyDefaults query).Status = query.Status := by
  unfold applyDefaults
  simp only
  split_ifs <;> rfl

theorem applyDefaults_CategoryID (query : entity.QueryString) :
    (applyDefaults query).CategoryID = query.CategoryID := by
  unfold applyDefaults
  simp only
  split_ifs <;> rfl

theorem applyDefaults_Limit_pos (query : entity.QueryString) :
    0 < (applyDefaults query).Limit := by
  rw [applyDefaults_Limit]
  split_ifs <;> omega

theorem applyDefaults_Page_pos (query : entity.QueryString) :
    1 ≤ (applyDefaults query).Page := by
  rw [applyDefaults_Page]
  split_ifs <;> omega

/-- For at most `2 ^ 53` rows and a positive limit in the range of `int`,
`totalPages` is the integer ceiling of the quotient. -/
theorem totalPages_eq (n : Nat) (limit : Int) (hl : 0 < limit) (hn : n ≤ 2 ^ 53)
    (hl2 : limit < 2 ^ 63) :
    totalPages n limit = ((n + limit.toNat - 1) / limit.toNat : Nat) := by
  have hb : 0 < limit.toNat := by omega
  have hb2 : limit.toNat < 2 ^ 63 := by omega
  unfold totalPages
  rw [float64.Ceil_div_ofInt_all n limit.toNat hb hn hb2]
  have hle : (n + limit.toNat - 1) / limit.toNat ≤ n := by
    generalize limit.toNat = b at hb
    apply Nat.le_of_lt_succ
    rw [Nat.div_lt_iff_lt_mul hb]
    have h1 : n * 1 ≤ n * b := Nat.mul_le_mul_left n hb
    have h2 : n.succ * b = n * b + b := Nat.succ_mul n b
    omega
  unfold float64.toInt
  rw [if_pos (by omega)]

/-- What the repository `GetContents` returns as count and number of pages. -/
theorem GetContents_counts (db : DB) (query : entity.QueryString)
    (items : List entity.ContentEntity) (total pages : Int)
    (h : GetContents db query = .ok (items, total, pages)) :
    total = ((db.contents.filter (sqlMain db (applyDefaults query))).length : Nat) ∧
    pages = totalPages (db.contents.filter (sqlMain db (applyDefaults query))).length
      (applyDefaults query).Limit := by
  unfold GetContents at h
  simp only at h
  split at h
  · cases h
  · split at h
    · cases h
    · simp only [Except.ok.injEq, Prod.mk.injEq] at h
      exact ⟨h.2.1.symm, h.2.2.symm⟩

theorem totalPages_zero (limit : Int) : totalPages 0 limit = 0 := by
  unfold totalPages float64.div
  simp [float64.ofInt_zero, float64.roundNE_zero, float64.Ceil, float64.toInt]

/-- C3 (counterexample). With `2 ^ 53 + 1` matching rows and limit 1 the
conversion to `float64` loses the last unit: `totalPages` is `2 ^ 53`, and
`2 ^ 53` pages of one row do not hold all the rows. -/
theorem totalPages_not_ceiling :
    totalPages 9007199254740993 1 = 9007199254740992 ∧
    ¬ ((9007199254740993 : Int) ≤ totalPages 9007199254740993 1 * 1) := by
  decide

/-- C3 (amended). When the repository `GetContents` returns, with at most
`2 ^ 53` matching rows, its `totalPages` is the ceiling of `totalRows / limit`
for every effective limit (a Go `int`, hence below `2 ^ 63`): the least integer
`p` with `p * limit ≥ totalRows`, where `totalRows ≥ 0` and the effective limit
is positive; 25 rows with limit 10 give 3 pages and no row gives no page.
`GetContents` does return when its two queries do not fail. -/
theorem totalPages_is_ceiling (db : DB) (query : entity.QueryString)
    (items : List entity.ContentEntity) (total pages : Int)
    (h : GetContents db query = .ok (items, total, pages))
    (hrows : total ≤ 2 ^ 53) (hlim : (applyDefaults query).Limit < 2 ^ 63) :
    0 ≤ total ∧ 0 < (applyDefaults query).Limit ∧
    total ≤ pages * (applyDefaults query).Limit ∧
    (∀ p : Int, total ≤ p * (applyDefaults query).Limit → pages ≤ p) ∧
    totalPages 25 10 = 3 ∧ (∀ limit : Int, totalPages 0 limit = 0) ∧
    (∀ (db2 : DB) (query2 : entity.QueryString),
      db2.fault .count = none → db2.fault .find = none →
      ∃ items2 total2 pages2, GetContents db2 query2 = .ok (items2, total2, pages2)) := by
  obtain ⟨ht, hp⟩ := GetContents_counts db query items total pages h
  have hpos := applyDefaults_Limit_pos query
  generalize (db.contents.filter (sqlMain db (applyDefaults query))).length = n at ht hp
  generalize (applyDefaults query).Limit = limit at hlim hp hpos ⊢
  subst ht
  have hn : n ≤ 2 ^ 53 := by omega
  rw [totalPages_eq n limit hpos hn hlim] at hp
  obtain ⟨b, rfl⟩ : ∃ b : Nat, limit = (b : Int) := ⟨limit.toNat, by omega⟩
  simp only [Int.toNat_ofNat] at hp
  have hb : 0 < b := by omega
  have hK1 : (n + b - 1) / b * b ≤ n + b - 1 := Nat.div_mul_le_self _ _
  have hK2 : n + b - 1 < b * ((n + b - 1) / b + 1) := Nat.lt_mul_div_succ _ hb
  generalize (n + b - 1) / b = K at hp hK1 hK2
  subst hp
  have hK2b : b * (K + 1) = K * b + b := by ring
  refine ⟨by omega, hpos, ?_, ?_, by decide, totalPages_zero,
    fun db2 query2 hc hf => ⟨_, _, _, GetContents_ok db2 query2 hc hf⟩⟩
  · have : n ≤ K * b := by omega
    exact_mod_cast this
  · intro p hp
    by_contra hlt
    have h1 : p + 1 ≤ (K : Int) := by omega
    have h2 : (p + 1) * (b : Int) ≤ (K : Int) * (b : Int) :=
      mul_le_mul_of_nonneg_right h1 (by omega)
    have h3 : ((K * b : Nat) : Int) ≤ ((n + b - 1 : Nat) : Int) := by exact_mod_cast hK1
    have h4 : ((n + b - 1 : Nat) : Int) = (n : Int) + (b : Int) - 1 := by omega
    have h5 : ((K * b : Nat) : Int) = (K : Int) * (b : Int) := by push_cast; ring
    have h6 : (p + 1) * (b : Int) = p * (b : Int) + (b : Int) := by ring
    omega

set_option maxRecDepth 4096 in
theorem totalPages_is_ceiling_witness :
    (∃ items, GetContents sample.db ⟨0, 0, [], [], [], [], 0⟩ = .ok (items, 3, 1) ∧
      (0 : Int) ≤ 3 ∧ 0 < (applyDefaults ⟨0, 0, [], [], [], [], 0⟩).Limit ∧
      (3 : Int) ≤ 1 * (applyDefaults ⟨0, 0, [], [], [], [], 0⟩).Limit ∧
      (∀ p : Int, 3 ≤ p * (applyDefaults ⟨0, 0, [], [], [], [], 0⟩).Limit → 1 ≤ p)) ∧
    (∃ items, GetContents sample.db ⟨2, 0, [], [], [], [], 0⟩ = .ok (items, 3, 2) ∧
      (3 : Int) ≤ 2 * (applyDefaults ⟨2, 0, [], [], [], [], 0⟩).Limit ∧
      (∀ p : Int, 3 ≤ p * (applyDefaults ⟨2, 0, [], [], [], [], 0⟩).Limit → 2 ≤ p)) ∧
    (∃ items,
      GetContents sample.db ⟨9223372036854775807, 0, [], [], [], [], 0⟩ = .ok (items, 3, 1) ∧
      (3 : Int) ≤ 1 * (applyDefaults ⟨9223372036854775807, 0, [], [], [], [], 0⟩).Limit ∧
      (∀ p : Int,
        3 ≤ p * (applyDefaults ⟨9223372036854775807, 0, [], [], [], [], 0⟩).Limit → 1 ≤ p)) :=
  have h1 := totalPages_is_ceiling sample.db ⟨0, 0, [], [], [], [], 0⟩ _ 3 1 rfl
    (by decide) (by decide)
  have h2 := totalPages_is_ceiling sample.db ⟨2, 0, [], [], [], [], 0⟩ _ 3 2 rfl
    (by decide) (by decide)
  have h3 := totalPages_is_ceiling sample.db ⟨9223372036854775807, 0, [], [], [], [], 0⟩ _ 3 1
    rfl (by decide) (by decide)
  ⟨⟨_, rfl, h1.1, h1.2.1, h1.2.2.1, h1.2.2.2.1⟩,
   ⟨_, rfl, h2.2.2.1, h2.2.2.2.1⟩,
   ⟨_, rfl, h3.2.2.1, h3.2.2.2.1⟩⟩

end pagination

/-! ### C5, C6, C7 -/

section handlers

open handler

/-- C5 (counterexample). With no query parameter the public listing hands the
order type `desc` to the service, not `DESC`. -/
theorem public_listing_not_upper_DESC :
    ¬ ((GetContentWithQuery sample.deps sample.g0 (sample.ctx 0 [])).trace =
      [.GetContents ⟨6, 1, "created_at".toList, "DESC".toList, [], "PUBLISH".toList, 0⟩]) := by
  decide

/-- C5 (amended). When every query parameter of the public listing is absent or
empty, the query handed to the content service is exactly limit 6, page 1,
order by `created_at`, order type `desc` (in lower case), status `PUBLISH`,
empty search and category 0, and the service is called once. -/
theorem public_listing_defaults (d : Deps) (g : DefaultSuccessResponse) (c : Ctx)
    (hpage : c.Query "page".toList = []) (hlimit : c.Query "limit".toList = [])
    (horderBy : c.Query "orderBy".toList = []) (horderType : c.Query "orderType".toList = [])
    (hsearch : c.Query "search".toList = []) (hcategory : c.Query "categoryID".toList = []) :
    (GetContentWithQuery d g c).trace =
      [.GetContents ⟨6, 1, "created_at".toList, "desc".toList, [], "PUBLISH".toList, 0⟩] := by
  unfold GetContentWithQuery
  simp only [hpage, hlimit, horderBy, horderType, hsearch, hcategory, ne_eq, not_true_eq_false,
    if_false]
  split <;> rfl

theorem public_listing_defaults_witness :
    (GetContentWithQuery sample.deps sample.g0 (sample.ctx 0 [])).trace =
      [.GetContents ⟨6, 1, "created_at".toList, "desc".toList, [], "PUBLISH".toList, 0⟩] :=
  public_listing_defaults sample.deps sample.g0 (sample.ctx 0 []) rfl rfl rfl rfl rfl rfl

/-- The listing of the administration is closed to the identity 0 before any
query parameter is read: the answer is 401 and the service is not called. -/
theorem admin_listing_gate (d : Deps) (g : DefaultSuccessResponse) (c : Ctx)
    (h : c.user.UserID = 0) :
    handler.GetContents d g c
      = ⟨StatusUnauthorized, .error ⟨false, "Unauthorized".toList⟩, []⟩ := by
  unfold handler.GetContents
  rw [if_pos h]
  rfl

/-- C6. If one of the numeric query parameters `page`, `limit`, `categoryID` of
a listing operation is present, non-empty and does not parse as an integer, the
operation answers 400 with an error document and the content service is called
zero times, so no default takes the place of the value: this holds for the
public listing, and for the listing of the administration once the request is
past its authorization gate (`userID ≠ 0`), which stands before the reading of
the parameters. -/
theorem invalid_numeric_parameter (d : Deps) (g : DefaultSuccessResponse) (c : Ctx)
    (key : Str)
    (hkey : key = "page".toList ∨ key = "limit".toList ∨ key = "categoryID".toList)
    (hne : c.Query key ≠ []) (e : Str) (herr : d.StringToInt (c.Query key) = .error e) :
    ((GetContentWithQuery d g c).status = StatusBadRequest ∧
      (GetContentWithQuery d g c).trace = [] ∧
      ∃ msg, (GetContentWithQuery d g c).body = .error ⟨false, msg⟩) ∧
    (c.user.UserID ≠ 0 →
      (handler.GetContents d g c).status = StatusBadRequest ∧
      (handler.GetContents d g c).trace = [] ∧
      ∃ msg, (handler.GetContents d g c).body = .error ⟨false, msg⟩) := by
  refine ⟨?_, ?_⟩
  · unfold GetContentWithQuery
    rcases hkey with rfl | rfl | rfl
    · simp only [ne_eq, hne, not_false_eq_true, if_true, herr]
      exact ⟨rfl, rfl, _, rfl⟩
    · simp only [ne_eq, hne, not_false_eq_true, if_true, herr]
      split
      · exact ⟨rfl, rfl, _, rfl⟩
      · exact ⟨rfl, rfl, _, rfl⟩
    · simp only [ne_eq, hne, not_false_eq_true, if_true, herr]
      split
      · exact ⟨rfl, rfl, _, rfl⟩
      · split
        · exact ⟨rfl, rfl, _, rfl⟩
        · exact ⟨rfl, rfl, _, rfl⟩
  · intro hu
    unfold handler.GetContents
    rw [if_neg hu]
    rcases hkey with rfl | rfl | rfl
    · simp only [ne_eq, hne, not_false_eq_true, if_true, herr]
      exact ⟨rfl, rfl, _, rfl⟩
    · simp only [ne_eq, hne, not_false_eq_true, if_true, herr]
      split
      · exact ⟨rfl, rfl, _, rfl⟩
      · exact ⟨rfl, rfl, _, rfl⟩
    · simp only [ne_eq, hne, not_false_eq_true, if_true, herr]
      split
      · exact ⟨rfl, rfl, _, rfl⟩
      · split
        · exact ⟨rfl, rfl, _, rfl⟩
        · exact ⟨rfl, rfl, _, rfl⟩

theorem invalid_numeric_parameter_witness :
    (GetContentWithQuery sample.deps sample.g0
        (sample.ctx 1 [("page".toList, "abc".toList)])).status = StatusBadRequest ∧
    (GetContentWithQuery sample.deps sample.g0
        (sample.ctx 1 [("page".toList, "abc".toList)])).trace = [] ∧
    (handler.GetContents sample.deps sample.g0
        (sample.ctx 1 [("page".toList, "abc".toList)])).status = StatusBadRequest ∧
    (handler.GetContents sample.deps sample.g0
        (sample.ctx 1 [("page".toList, "abc".toList)])).trace = [] :=
  have h := invalid_numeric_parameter sample.deps sample.g0
    (sample.ctx 1 [("page".toList, "abc".toList)]) "page".toList (Or.inl rfl) (by decide)
    conv.ErrSyntax rfl
  ⟨h.1.1, h.1.2.1, (h.2 (by decide)).1, (h.2 (by decide)).2.1⟩

/-- C7. For an identity with `userID == 0`, `CreateContent`, `EditContentByID`
and `DeleteContent` answer 401 `Unauthorized` and do nothing else: the body is
not parsed, no path parameter is read and the content service is not called,
whatever the body and the parameters are. -/
theorem mutation_unauthorized (d : Deps) (g : DefaultSuccessResponse) (c : Ctx)
    (h : c.user.UserID = 0) :
    handler.CreateContent d g c
      = ⟨StatusUnauthorized, .error ⟨false, "Unauthorized".toList⟩, []⟩ ∧
    handler.EditContentByID d g c
      = ⟨StatusUnauthorized, .error ⟨false, "Unauthorized".toList⟩, []⟩ ∧
    handler.DeleteContent d g c
      = ⟨StatusUnauthorized, .error ⟨false, "Unauthorized".toList⟩, []⟩ := by
  refine ⟨?_, ?_, ?_⟩
  · unfold handler.CreateContent
    rw [if_pos h]
    rfl
  · unfold handler.EditContentByID
    rw [if_pos h]
    rfl
  · unfold handler.DeleteContent
    rw [if_pos h]
    rfl

theorem mutation_unauthorized_witness :
    handler.CreateContent sample.deps sample.g0 (sample.ctx 0 [])
      = ⟨401, .error ⟨false, "Unauthorized".toList⟩, []⟩ ∧
    handler.EditContentByID sample.deps sample.g0 (sample.ctx 0 [])
      = ⟨401, .error ⟨false, "Unauthorized".toList⟩, []⟩ ∧
    handler.DeleteContent sample.deps sample.g0 (sample.ctx 0 [])
      = ⟨401, .error ⟨false, "Unauthorized".toList⟩, []⟩ :=
  mutation_unauthorized sample.deps sample.g0 (sample.ctx 0 []) rfl

end handlers

/-! ### C8, C9 -/

section listing

open repository

theorem sqlMain_iff (db : DB) (query : entity.QueryString) (m : model.Content)
    (hsearch : ∀ c ∈ query.Search, sql.plain c) (hstatus : ∀ c ∈ query.Status, sql.plain c) :
    sqlMain db query m = true ↔
      (sql.lower db.collation query.Search <:+: sql.lower db.collation m.Title ∨
        sql.lower db.collation query.Search <:+: sql.lower db.collation m.Excerpt ∨
        sql.lower db.collation query.Search <:+: sql.lower db.collation m.Description) ∧
      query.Status <:+: m.Status ∧
      (query.CategoryID > 0 → m.CategoryID = query.CategoryID) := by
  have hst : (if query.Status ≠ [] then query.Status else []) = query.Status := by
    split_ifs with h
    · rfl
    · exact (not_not.mp h).symm
  have hpat : ∀ s : Str, "%".toList ++ s ++ "%".toList = '%' :: (s ++ ['%']) := fun s => rfl
  unfold sqlMain
  simp only [hst, hpat, Bool.and_eq_true, Bool.or_eq_true, sql.ilike_contains _ _ _ hsearch,
    sql.like_contains _ _ hstatus]
  have hcat : ((if query.CategoryID > 0 then m.CategoryID == query.CategoryID else true) = true)
      ↔ (query.CategoryID > 0 → m.CategoryID = query.CategoryID) := by
    split_ifs with h
    · simp [h]
    · simp [h]
  rw [hcat]
  tauto

/-- C8 (counterexample). The search text `_` selects the three sample rows,
although it occurs in no title, excerpt or description. -/
theorem search_underscore_matches_all :
    (match GetContents sample.db ⟨0, 0, [], [], "_".toList, [], 0⟩ with
      | .ok (_, total, _) => total
      | .error _ => 0) = 3 ∧
    ∀ m ∈ sample.db.contents,
      ¬ (sql.lower sample.db.collation "_".toList <:+: sql.lower sample.db.collation m.Title ∨
        sql.lower sample.db.collation "_".toList <:+: sql.lower sample.db.collation m.Excerpt ∨
        sql.lower sample.db.collation "_".toList
          <:+: sql.lower sample.db.collation m.Description) := by
  decide

/-- C8 (amended). When neither the search text nor the status filter contains
one of the pattern characters `%`, `_` and backslash, a row is in the filtered
set of `GetContents` if and only if the search text occurs, case-insensitively
(the case being folded as the database does for its locale), as a substring of
its title or excerpt or description, the status filter occurs as a substring
of its status, and, when `categoryID > 0`, its category is `categoryID`; an
empty search and an empty filter match every row.  With the rows titled
"Go basics", "Rust intro", "Go advanced" and search "Go" exactly the two Go
rows are returned and `totalRows` is 2. -/
theorem filter_correct (query : entity.QueryString)
    (hsearch : ∀ c ∈ query.Search, sql.plain c) (hstatus : ∀ c ∈ query.Status, sql.plain c)
    (db : DB) (m : model.Content) :
    (m ∈ db.contents.filter (sqlMain db (applyDefaults query)) ↔
      m ∈ db.contents ∧
      (sql.lower db.collation query.Search <:+: sql.lower db.collation m.Title ∨
        sql.lower db.collation query.Search <:+: sql.lower db.collation m.Excerpt ∨
        sql.lower db.collation query.Search <:+: sql.lower db.collation m.Description) ∧
      query.Status <:+: m.Status ∧
      (query.CategoryID > 0 → m.CategoryID = query.CategoryID)) ∧
    (query.Search = [] → query.Status = [] → query.CategoryID ≤ 0 →
      db.contents.filter (sqlMain db (applyDefaults query)) = db.contents) ∧
    GetContents sample.db ⟨0, 0, [], [], "Go".toList, [], 0⟩ =
      .ok ([toEntity (preload sample.db (sample.row 3 "Go advanced".toList)),
            toEntity (preload sample.db (sample.row 1 "Go basics".toList))], 2, 1) := by
  have hs2 : ∀ c ∈ (applyDefaults query).Search, sql.plain c := by
    rw [applyDefaults_Search]; exact hsearch
  have hst2 : ∀ c ∈ (applyDefaults query).Status, sql.plain c := by
    rw [applyDefaults_Status]; exact hstatus
  have key : ∀ r : model.Content, sqlMain db (applyDefaults query) r = true ↔
      (sql.lower db.collation query.Search <:+: sql.lower db.collation r.Title ∨
        sql.lower db.collation query.Search <:+: sql.lower db.collation r.Excerpt ∨
        sql.lower db.collation query.Search <:+: sql.lower db.collation r.Description) ∧
      query.Status <:+: r.Status ∧
      (query.CategoryID > 0 → r.CategoryID = query.CategoryID) := by
    intro r
    have := sqlMain_iff db (applyDefaults query) r hs2 hst2
    rwa [applyDefaults_Search, applyDefaults_Status, applyDefaults_CategoryID] at this
  refine ⟨?_, ?_, rfl⟩
  · rw [List.mem_filter, key]
  · intro h1 h2 h3
    rw [List.filter_eq_self]
    intro r _
    rw [key, h1, h2]
    refine ⟨Or.inl ?_, List.nil_infix, fun h => absurd h (by omega)⟩
    exact List.nil_infix

theorem filter_correct_witness :
    (sample.row 1 "Go basics".toList ∈
        sample.db.contents.filter
          (sqlMain sample.db (applyDefaults ⟨0, 0, [], [], "Go".toList, [], 0⟩)) ↔
      sample.row 1 "Go basics".toList ∈ sample.db.contents ∧
      (sql.lower sample.db.collation "Go".toList
          <:+: sql.lower sample.db.collation (sample.row 1 "Go basics".toList).Title ∨
        sql.lower sample.db.collation "Go".toList
          <:+: sql.lower sample.db.collation (sample.row 1 "Go basics".toList).Excerpt ∨
        sql.lower sample.db.collation "Go".toList
          <:+: sql.lower sample.db.collation (sample.row 1 "Go basics".toList).Description) ∧
      ([] : Str) <:+: (sample.row 1 "Go basics".toList).Status ∧
      ((0 : Int) > 0 → (sample.row 1 "Go basics".toList).CategoryID = 0)) ∧
    sample.row 1 "Go basics".toList ∈
      sample.db.contents.filter
        (sqlMain sample.db (applyDefaults ⟨0, 0, [], [], "gO BAS".toList, [], 0⟩)) ∧
    sample.row 1 "École de Go".toList ∈
      sample.dbFrench.contents.filter
        (sqlMain sample.dbFrench (applyDefaults ⟨0, 0, [], [], "é".toList, [], 0⟩)) :=
  ⟨(filter_correct ⟨0, 0, [], [], "Go".toList, [], 0⟩ (by decide) (by decide) sample.db
      (sample.row 1 "Go basics".toList)).1,
   (filter_correct ⟨0, 0, [], [], "gO BAS".toList, [], 0⟩ (by decide) (by decide) sample.db
      (sample.row 1 "Go basics".toList)).1.mpr (by decide),
   (filter_correct ⟨0, 0, [], [], "é".toList, [], 0⟩ (by decide) (by decide) sample.dbFrench
      (sample.row 1 "École de Go".toList)).1.mpr (by decide)⟩

end listing

/-! ### C10 -/

section normalizer

open handler

/-- A numeric parameter as the listing handlers read it: the default for an
absent or empty parameter, what the conversion yields otherwise. -/
theorem parsed_or_default (d : Deps) (s : Str) (dflt v : Int)
    (h : (if s ≠ [] then d.StringToInt s else .ok dflt) = .ok v) :
    (s = [] → v = dflt) ∧ (s ≠ [] → d.StringToInt s = .ok v) := by
  by_cases hs : s = []
  · simp only [hs, ne_eq, not_true_eq_false, if_false, Except.ok.injEq] at h
    exact ⟨fun _ => h.symm, fun hne => absurd hs hne⟩
  · simp only [ne_eq, hs, not_false_eq_true, if_true] at h
    exact ⟨fun he => absurd he hs, fun _ => h⟩

theorem admin_listing_query (d : Deps) (g : DefaultSuccessResponse) (c : Ctx)
    (q : entity.QueryString) (h : Event.GetContents q ∈ (handler.GetContents d g c).trace) :
    (c.Query "limit".toList = [] → q.Limit = 10) ∧
    (c.Query "limit".toList ≠ [] → d.StringToInt (c.Query "limit".toList) = .ok q.Limit) ∧
    (c.Query "page".toList = [] → q.Page = 1) ∧
    (c.Query "page".toList ≠ [] → d.StringToInt (c.Query "page".toList) = .ok q.Page) := by
  unfold handler.GetContents at h
  by_cases hu : c.user.UserID = 0
  · simp [hu, fail] at h
  · rw [if_neg hu] at h
    generalize hP : (if c.Query "page".toList ≠ [] then d.StringToInt (c.Query "page".toList)
      else .ok 1) = P at h
    generalize hL : (if c.Query "limit".toList ≠ [] then d.StringToInt (c.Query "limit".toList)
      else .ok 10) = L at h
    generalize (if c.Query "categoryID".toList ≠ [] then
      d.StringToInt (c.Query "categoryID".toList) else .ok 0) = C at h
    rcases P with _ | page
    · simp [fail] at h
    rcases L with _ | limit
    · simp [fail] at h
    rcases C with _ | categoryID
    · simp [fail] at h
    simp only at h
    have hq : q.Limit = limit ∧ q.Page = page := by
      split at h
      · simp only [fail, List.mem_singleton, Event.GetContents.injEq] at h
        subst h
        exact ⟨rfl, rfl⟩
      · simp only [List.mem_singleton, Event.GetContents.injEq] at h
        subst h
        exact ⟨rfl, rfl⟩
    rw [hq.1, hq.2]
    have h1 := parsed_or_default d _ 10 limit hL
    have h2 := parsed_or_default d _ 1 page hP
    exact ⟨h1.1, h1.2, h2.1, h2.2⟩

theorem public_listing_query (d : Deps) (g : DefaultSuccessResponse) (c : Ctx)
    (q : entity.QueryString) (h : Event.GetContents q ∈ (GetContentWithQuery d g c).trace) :
    (c.Query "limit".toList = [] → q.Limit = 6) ∧
    (c.Query "limit".toList ≠ [] → d.StringToInt (c.Query "limit".toList) = .ok q.Limit) ∧
    (c.Query "page".toList = [] → q.Page = 1) ∧
    (c.Query "page".toList ≠ [] → d.StringToInt (c.Query "page".toList) = .ok q.Page) := by
  unfold GetContentWithQuery at h
  generalize hP : (if c.Query "page".toList ≠ [] then d.StringToInt (c.Query "page".toList)
    else .ok 1) = P at h
  generalize hL : (if c.Query "limit".toList ≠ [] then d.StringToInt (c.Query "limit".toList)
    else .ok 6) = L at h
  generalize (if c.Query "categoryID".toList ≠ [] then
    d.StringToInt (c.Query "categoryID".toList) else .ok 0) = C at h
  rcases P with _ | page
  · simp [fail] at h
  rcases L with _ | limit
  · simp [fail] at h
  rcases C with _ | categoryID
  · simp [fail] at h
  simp only at h
  have hq : q.Limit = limit ∧ q.Page = page := by
    split at h
    · simp only [fail, List.mem_singleton, Event.GetContents.injEq] at h
      subst h
      exact ⟨rfl, rfl⟩
    · simp only [List.mem_singleton, Event.GetContents.injEq] at h
      subst h
      exact ⟨rfl, rfl⟩
  rw [hq.1, hq.2]
  have h1 := parsed_or_default d _ 6 limit hL
  have h2 := parsed_or_default d _ 1 page hP
  exact ⟨h1.1, h1.2, h2.1, h2.2⟩

/-- C10 (counterexample). The listing handlers accept `limit=0`, `page=-1` and
`limit=-5`, `page=0` and hand these values to the service as they are. -/
theorem listing_passes_nonpositive_values :
    (handler.GetContents sample.deps sample.g0
        (sample.ctx 1 [("limit".toList, "0".toList), ("page".toList, "-1".toList)])).trace =
      [.GetContents ⟨0, -1, "created_at".toList, "desc".toList, [], [], 0⟩] ∧
    (GetContentWithQuery sample.deps sample.g0
        (sample.ctx 0 [("limit".toList, "-5".toList), ("page".toList, "0".toList)])).trace =
      [.GetContents ⟨-5, 0, "created_at".toList, "desc".toList, [], "PUBLISH".toList, 0⟩] := by
  decide

/-- C10 (amended). A query that a listing handler (`GetContents`,
`GetContentWithQuery`) hands to the service carries the limit and the page as
parsed, and the default of the handler (limit 10 or 6, page 1) only for an
absent or empty parameter; the limit and the page that the repository
`GetContents` works with, after its own defaults, satisfy `limit > 0` and
`page ≥ 1`, and they are the values handed over when these are positive. -/
theorem listing_limit_and_page (d : Deps) (g : DefaultSuccessResponse) (c : Ctx)
    (q : entity.QueryString)
    (h : Event.GetContents q ∈ (handler.GetContents d g c).trace ∨
      Event.GetContents q ∈ (GetContentWithQuery d g c).trace) :
    (c.Query "limit".toList ≠ [] → d.StringToInt (c.Query "limit".toList) = .ok q.Limit) ∧
    (c.Query "limit".toList = [] → q.Limit = 10 ∨ q.Limit = 6) ∧
    (c.Query "page".toList ≠ [] → d.StringToInt (c.Query "page".toList) = .ok q.Page) ∧
    (c.Query "page".toList = [] → q.Page = 1) ∧
    0 < (repository.applyDefaults q).Limit ∧ 1 ≤ (repository.applyDefaults q).Page ∧
    (0 < q.Limit → (repository.applyDefaults q).Limit = q.Limit) ∧
    (1 ≤ q.Page → (repository.applyDefaults q).Page = q.Page) := by
  have hrepo : 0 < (repository.applyDefaults q).Limit ∧ 1 ≤ (repository.applyDefaults q).Page ∧
      (0 < q.Limit → (repository.applyDefaults q).Limit = q.Limit) ∧
      (1 ≤ q.Page → (repository.applyDefaults q).Page = q.Page) := by
    refine ⟨applyDefaults_Limit_pos q, applyDefaults_Page_pos q, ?_, ?_⟩
    · intro hl
      rw [applyDefaults_Limit, if_neg (by omega)]
    · intro hp
      rw [applyDefaults_Page, if_neg (by omega)]
  rcases h with h | h
  · obtain ⟨h1, h2, h3, h4⟩ := admin_listing_query d g c q h
    exact ⟨h2, fun he => Or.inl (h1 he), h4, h3, hrepo⟩
  · obtain ⟨h1, h2, h3, h4⟩ := public_listing_query d g c q h
    exact ⟨h2, fun he => Or.inr (h1 he), h4, h3, hrepo⟩

theorem listing_limit_and_page_witness :
    (0 : Int) < (repository.applyDefaults
      ⟨0, -1, "created_at".toList, "desc".toList, [], [], 0⟩).Limit ∧
    (1 : Int) ≤ (repository.applyDefaults
      ⟨0, -1, "created_at".toList, "desc".toList, [], [], 0⟩).Page :=
  have h := listing_limit_and_page sample.deps sample.g0
    (sample.ctx 1 [("limit".toList, "0".toList), ("page".toList, "-1".toList)])
    ⟨0, -1, "created_at".toList, "desc".toList, [], [], 0⟩ (Or.inl (by decide))
  ⟨h.2.2.2.2.1, h.2.2.2.2.2.1⟩

end normalizer

/-! ### C12 -/

section validation

open validatorLib

/-- The loop of `joinMessages` past the first position: every further message
is appended behind a separator. -/
theorem joinMessagesFrom_succ (rest : List Str) : ∀ (a : Str) (i : Nat) (result : Str),
    joinMessagesFrom (a :: rest) (i + 1) result
      = result ++ "; ".toList ++ strings.Join (a :: rest) "; ".toList := by
  induction rest with
  | nil =>
    intro a i result
    simp [joinMessagesFrom, strings.Join]
  | cons b r ih =>
    intro a i result
    have h : joinMessagesFrom (a :: b :: r) (i + 1) result
        = joinMessagesFrom (b :: r) (i + 1 + 1) (result ++ "; ".toList ++ a) := by
      simp [joinMessagesFrom]
    rw [h, ih]
    simp [strings.Join]

theorem joinMessages_eq_Join (msgs : List Str) :
    joinMessages msgs = strings.Join msgs "; ".toList := by
  cases msgs with
  | nil => rfl
  | cons a rest =>
    cases rest with
    | nil => simp [joinMessages, joinMessagesFrom, strings.Join]
    | cons b r =>
      have h : joinMessages (a :: b :: r) = joinMessagesFrom (b :: r) (0 + 1) a := by
        simp [joinMessages, joinMessagesFrom]
      rw [h, joinMessagesFrom_succ]
      simp [strings.Join]

/-- C12. For every list of field errors that `validate.Struct` returns, the error
text of `ValidateStruct` is `validation error: ` followed by the messages in
order joined with `; `.  `joinMessages` is the join with separator `; `: the
empty string for no message, the message itself for one, and otherwise the
first message, the separator, and the join of the remaining ones, so that the
separator stands between consecutive messages only. -/
theorem validation_error_text :
    (∀ errs : List FieldError,
      ValidateStruct (some errs)
        = some ("validation error: ".toList ++ strings.Join (errs.map message) "; ".toList)) ∧
    (∀ msgs : List Str, joinMessages msgs = strings.Join msgs "; ".toList) ∧
    joinMessages [] = [] ∧
    (∀ m : Str, joinMessages [m] = m) ∧
    (∀ (a b : Str) (rest : List Str),
      joinMessages (a :: b :: rest) = a ++ "; ".toList ++ joinMessages (b :: rest)) ∧
    ValidateStruct (some [⟨"required".toList, "Title".toList, []⟩,
        ⟨"min".toList, "Password".toList, "8".toList⟩])
      = some "validation error: Title is required; Password must be at least 8 characters long".toList
    := by
  refine ⟨?_, joinMessages_eq_Join, rfl, ?_, ?_, by decide⟩
  · intro errs
    simp only [ValidateStruct, joinMessages_eq_Join]
  · intro m
    rw [joinMessages_eq_Join]
    rfl
  · intro a b rest
    rw [joinMessages_eq_Join, joinMessages_eq_Join]
    rfl

end validation

/-! ### C14, C15 -/

section codec2

open strings repository

theorem splitAux_length (s : Str) : ∀ cur : Str,
    (splitAux comma s 0 cur).length = 1 + s.count ',' := by
  induction s with
  | nil => intro cur; simp [splitAux_nil]
  | cons c s ih =>
    intro cur
    by_cases hc : c = ','
    · subst hc
      rw [splitAux_comma, List.length_cons, ih, List.count_cons_self]
      omega
    · rw [splitAux_other c s cur hc, ih, List.count_cons_of_ne (fun e => hc e.symm)]

theorem splitAux_ne_nil (s : Str) (cur : Str) : splitAux comma s 0 cur ≠ [] := by
  intro h
  have := splitAux_length s cur
  rw [h, List.length_nil] at this
  omega

theorem Join_cons (a : Str) (l : List Str) (sep : Str) (h : l ≠ []) :
    Join (a :: l) sep = a ++ sep ++ Join l sep := by
  cases l with
  | nil => exact absurd rfl h
  | cons b r => rfl

theorem Join_splitAux (s : Str) : ∀ cur : Str,
    Join (splitAux comma s 0 cur) comma = cur.reverse ++ s := by
  induction s with
  | nil => intro cur; simp [splitAux_nil, Join]
  | cons c s ih =>
    intro cur
    by_cases hc : c = ','
    · subst hc
      rw [splitAux_comma, Join_cons _ _ _ (splitAux_ne_nil s []), ih]
      simp [comma]
    · rw [splitAux_other c s cur hc, ih]
      simp

/-- Joining the pieces of a split gives back the string. -/
theorem Join_Split (s : Str) : Join (Split s comma) comma = s := by
  rw [Split_comma, Join_splitAux]
  rfl

theorem count_Join (ts : List Str) : ∀ t : Str,
    (Join (t :: ts) comma).count ',' = ts.length + ((t :: ts).map (List.count ',')).sum := by
  induction ts with
  | nil => intro t; simp [Join]
  | cons b r ih =>
    intro t
    rw [Join_cons t (b :: r) comma (by simp), List.count_append, List.count_append, ih]
    simp [comma]
    omega

theorem Split_Join_length (tags : List Str) (h : ∃ t ∈ tags, ',' ∈ t) :
    tags.length < (Split (Join tags comma) comma).length := by
  obtain ⟨x, hx, hcx⟩ := h
  cases tags with
  | nil => simp at hx
  | cons t ts =>
    rw [Split_comma, splitAux_length, count_Join]
    have h1 : 0 < List.count ',' x := List.count_pos_iff.mpr hcx
    have h2 : List.count ',' x ≤ ((t :: ts).map (List.count ',')).sum :=
      List.single_le_sum (fun _ _ => Nat.zero_le _) _ (List.mem_map_of_mem _ hx)
    simp only [List.length_cons]
    omega

/-- The row that `CreateContent` adds is on the first page of a listing that
selects it, when the rows selected before were fewer than the limit. -/
theorem created_row_on_first_page (db : DB) (req : entity.ContentEntity)
    (query : entity.QueryString) (r : model.Content)
    (hr : r = { toModel req with ID := db.nextID, CreatedAt := db.now })
    (db1 : DB) (hdb1 : db1 = { db with contents := db.contents ++ [r], nextID := db.nextID + 1 })
    (hp : (applyDefaults query).Page = 1)
    (hl : ((db.contents.filter (sqlMain db (applyDefaults query))).length : Int)
      < (applyDefaults query).Limit)
    (hsel : sqlMain db (applyDefaults query) (toModel req) = true) :
    r ∈ limitOffset (applyDefaults query).Limit (offsetOf (applyDefaults query))
        (db1.orderBy (orderOf (applyDefaults query))
          (db1.contents.filter (sqlMain db1 (applyDefaults query)))) := by
  have hfun : sqlMain db1 (applyDefaults query) = sqlMain db (applyDefaults query) := by
    rw [hdb1]
    rfl
  have hselr : sqlMain db (applyDefaults query) r = true := by
    rw [hr]
    exact hsel
  have hfilter : db1.contents.filter (sqlMain db1 (applyDefaults query))
      = db.contents.filter (sqlMain db (applyDefaults query)) ++ [r] := by
    rw [hfun, hdb1]
    simp only [List.filter_append, List.filter_cons, hselr, if_true, List.filter_nil]
  have hl1 : ((db1.contents.filter (sqlMain db1 (applyDefaults query))).length : Int)
      ≤ (applyDefaults query).Limit := by
    rw [hfilter, List.length_append, List.length_singleton]
    push_cast
    omega
  rw [first_page_all db1 query hp hl1]
  unfold DB.orderBy
  rw [(List.perm_insertionSort _ _).mem_iff, hfilter]
  simp

/-- C14. When at least one tag contains `,`, the round trip corrupts the tags:
splitting the joined field gives a strictly longer sequence, of length 1 plus
the number of `,` in the encoded field.  This is what the repository does: the
row built from a content with such tags decodes to a longer sequence; a content
created with such tags is read back by `GetContentByID` with a strictly longer
sequence of tags, of length 1 plus the number of `,` in the stored field; and
`GetContents`, on a first page that selects the new row, returns it with that
longer sequence. -/
theorem comma_tag_corrupts (tags : List Str) (h : ∃ t ∈ tags, ',' ∈ t) :
    Split (Join tags comma) comma ≠ tags ∧
    tags.length < (Split (Join tags comma) comma).length ∧
    (Split (Join tags comma) comma).length = 1 + (Join tags comma).count ',' ∧
    (∀ req : entity.ContentEntity, req.Tags = tags →
      (toEntity (toModel req)).Tags ≠ req.Tags ∧
      req.Tags.length < (toEntity (toModel req)).Tags.length ∧
      (toEntity (toModel req)).Tags.length = 1 + (toModel req).Tags.count ',') ∧
    (∀ (db : DB) (req : entity.ContentEntity), req.Tags = tags →
      db.fault .create = none → db.fault .first = none →
      (∀ m ∈ db.contents, m.ID ≠ db.nextID) →
      ∃ db1 r e, CreateContent db req = .ok db1 ∧ db1.contents = db.contents ++ [r] ∧
        r.ID = db.nextID ∧ GetContentByID db1 db.nextID = .ok e ∧
        e.Tags ≠ tags ∧ tags.length < e.Tags.length ∧
        e.Tags.length = 1 + r.Tags.count ',') ∧
    (∀ (db : DB) (req : entity.ContentEntity) (query : entity.QueryString), req.Tags = tags →
      db.fault .create = none → db.fault .count = none → db.fault .find = none →
      (applyDefaults query).Page = 1 →
      ((db.contents.filter (sqlMain db (applyDefaults query))).length : Int)
        < (applyDefaults query).Limit →
      sqlMain db (applyDefaults query) (toModel req) = true →
      ∃ db1 r items total pages, CreateContent db req = .ok db1 ∧
        db1.contents = db.contents ++ [r] ∧ r.ID = db.nextID ∧
        GetContents db1 query = .ok (items, total, pages) ∧
        ∃ e ∈ items, e.ID = db.nextID ∧ e.Tags ≠ tags ∧ tags.length < e.Tags.length ∧
          e.Tags.length = 1 + r.Tags.count ',') := by
  have hlen := Split_Join_length tags h
  have hne : Split (Join tags comma) comma ≠ tags := by
    intro e
    rw [e] at hlen
    exact Nat.lt_irrefl _ hlen
  have hcount : (Split (Join tags comma) comma).length = 1 + (Join tags comma).count ',' := by
    rw [Split_comma, splitAux_length]
  refine ⟨hne, hlen, hcount, ?_, ?_, ?_⟩
  · intro req hreq
    simp only [toEntity, toModel, hreq]
    exact ⟨hne, hlen, hcount⟩
  · intro db req hreq hcreate hfirst hfresh
    let r : model.Content := { toModel req with ID := db.nextID, CreatedAt := db.now }
    let db1 : DB := { db with contents := db.contents ++ [r], nextID := db.nextID + 1 }
    have hnone : db.contents.find? (fun m => m.ID == db.nextID) = none := by
      rw [List.find?_eq_none]
      intro m hm
      simpa using hfresh m hm
    have hfind : db1.contents.find? (fun m => m.ID == db.nextID) = some r := by
      simp [db1, r, List.find?_append, hnone]
    refine ⟨db1, r, toEntity (preload db1 r), ?_, rfl, rfl,
      GetContentByID_of_find db1 _ r hfirst hfind, ?_⟩
    · simp only [CreateContent, hcreate]
    · simp only [toEntity, preload, toModel, hreq, r]
      exact ⟨hne, hlen, hcount⟩
  · intro db req query hreq hcreate hcount1 hfind hp hl hsel
    let r : model.Content := { toModel req with ID := db.nextID, CreatedAt := db.now }
    let db1 : DB := { db with contents := db.contents ++ [r], nextID := db.nextID + 1 }
    have hmem := created_row_on_first_page db req query r rfl db1 rfl hp hl hsel
    refine ⟨db1, r, _, _, _, ?_, rfl, rfl, GetContents_ok db1 query hcount1 hfind,
      toEntity (preload db1 r), ?_, rfl, ?_⟩
    · simp only [CreateContent, hcreate]
    · exact List.mem_map_of_mem _ (List.mem_map_of_mem _ hmem)
    · simp only [toEntity, preload, toModel, hreq, r]
      exact ⟨hne, hlen, hcount⟩

theorem comma_tag_corrupts_witness :
    Split (Join ["a,b".toList, "c".toList] comma) comma ≠ ["a,b".toList, "c".toList] ∧
    (2 : Nat) < (Split (Join ["a,b".toList, "c".toList] comma) comma).length ∧
    (∃ db1 r e,
      CreateContent sample.db { sample.content with Tags := ["a,b".toList, "c".toList] }
        = .ok db1 ∧
      db1.contents = sample.db.contents ++ [r] ∧ r.ID = sample.db.nextID ∧
      GetContentByID db1 sample.db.nextID = .ok e ∧
      e.Tags ≠ ["a,b".toList, "c".toList] ∧
      ["a,b".toList, "c".toList].length < e.Tags.length ∧
      e.Tags.length = 1 + r.Tags.count ',') ∧
    (∃ db1 r items total pages,
      CreateContent sample.db { sample.content with Tags := ["a,b".toList, "c".toList] }
        = .ok db1 ∧
      db1.contents = sample.db.contents ++ [r] ∧ r.ID = sample.db.nextID ∧
      GetContents db1 ⟨0, 0, [], [], [], [], 0⟩ = .ok (items, total, pages) ∧
      ∃ e ∈ items, e.ID = sample.db.nextID ∧ e.Tags ≠ ["a,b".toList, "c".toList] ∧
        ["a,b".toList, "c".toList].length < e.Tags.length ∧
        e.Tags.length = 1 + r.Tags.count ',') :=
  have h := comma_tag_corrupts ["a,b".toList, "c".toList] (by decide)
  ⟨h.1, h.2.1,
   h.2.2.2.2.1 sample.db { sample.content with Tags := ["a,b".toList, "c".toList] }
     rfl rfl rfl (by decide),
   h.2.2.2.2.2 sample.db { sample.content with Tags := ["a,b".toList, "c".toList] }
     ⟨0, 0, [], [], [], [], 0⟩ rfl rfl rfl rfl (by decide) (by decide) (by decide)⟩

/-- The entity `CreateContent` hands to the service carries the split of the
request tags. -/
theorem CreateContent_entity_tags (d : handler.Deps) (g : handler.DefaultSuccessResponse)
    (c : handler.Ctx) (e : entity.ContentEntity)
    (h : handler.Event.CreateContent e ∈ (handler.CreateContent d g c).trace) :
    ∃ req, d.BodyParser c.Body = .ok req ∧ e.Tags = Split req.Tags comma := by
  unfold handler.CreateContent at h
  split at h
  · simp [handler.fail] at h
  · split at h
    · simp [handler.fail] at h
    · rename_i req hb
      refine ⟨req, hb, ?_⟩
      split at h
      · simp [handler.fail] at h
      · simp only at h
        split at h
        · simp only [handler.fail, List.mem_cons, List.mem_singleton, reduceCtorEq, false_or,
            handler.Event.CreateContent.injEq, List.not_mem_nil, or_false] at h
          rw [h]
        · simp only [List.mem_cons, List.mem_singleton, reduceCtorEq, false_or,
            handler.Event.CreateContent.injEq, List.not_mem_nil, or_false] at h
          rw [h]

/-- The entity `EditContentByID` hands to the service carries the split of the
request tags. -/
theorem EditContentByID_entity_tags (d : handler.Deps) (g : handler.DefaultSuccessResponse)
    (c : handler.Ctx) (e : entity.ContentEntity)
    (h : handler.Event.EditContentByID e ∈ (handler.EditContentByID d g c).trace) :
    ∃ req, d.BodyParser c.Body = .ok req ∧ e.Tags = Split req.Tags comma := by
  unfold handler.EditContentByID at h
  split at h
  · simp [handler.fail] at h
  · split at h
    · simp [handler.fail] at h
    · rename_i req hb
      refine ⟨req, hb, ?_⟩
      split at h
      · simp [handler.fail] at h
      · simp only at h
        split at h
        · simp [handler.fail] at h
        · split at h
          · simp only [handler.fail, List.mem_cons, List.mem_singleton, reduceCtorEq, false_or,
              handler.Event.EditContentByID.injEq, List.not_mem_nil, or_false] at h
            rw [h]
          · simp only [List.mem_cons, List.mem_singleton, reduceCtorEq, false_or,
              handler.Event.EditContentByID.injEq, List.not_mem_nil, or_false] at h
            rw [h]

/-- C15 (counterexample). A content is created with the tags `go,news` and then
edited with the empty tags string: the stored tags field is still `go,news`,
the update leaving out a field whose new value is empty. -/
theorem edit_with_empty_tags_keeps_old :
    (match CreateContent sample.db sample.content with
      | .error _ => []
      | .ok db1 =>
        match EditContentByID db1 { sample.content with ID := 4, Tags := Split [] comma } with
        | .error _ => []
        | .ok db2 => (db2.contents.filter (fun m => m.ID == 4)).map (fun m => m.Tags))
      = ["go,news".toList] := by
  decide

/-- An authorized `CreateContent` whose body parses and validates calls the
service once, with the split of the request tags. -/
theorem CreateContent_calls_service (d : handler.Deps) (g : handler.DefaultSuccessResponse)
    (c : handler.Ctx) (req : handler.ContentRequest) (hu : c.user.UserID ≠ 0)
    (hb : d.BodyParser c.Body = .ok req) (hv : d.ValidateStruct req = none) :
    ∃ e, (handler.CreateContent d g c).trace
        = [.BodyParser, .ValidateStruct, .CreateContent e] ∧
      e.Tags = Split req.Tags comma := by
  unfold handler.CreateContent
  rw [if_neg hu]
  simp only [hb, hv]
  split
  · exact ⟨_, rfl, rfl⟩
  · exact ⟨_, rfl, rfl⟩

/-- An authorized `EditContentByID` whose body parses and validates and whose
path parameter is a number calls the service once, with that key and the split
of the request tags. -/
theorem EditContentByID_calls_service (d : handler.Deps) (g : handler.DefaultSuccessResponse)
    (c : handler.Ctx) (req : handler.ContentRequest) (id : Int) (hu : c.user.UserID ≠ 0)
    (hb : d.BodyParser c.Body = .ok req) (hv : d.ValidateStruct req = none)
    (hid : d.StringToInt64 (c.Params "contentID".toList) = .ok id) :
    ∃ e, (handler.EditContentByID d g c).trace
        = [.BodyParser, .ValidateStruct, .Params "contentID".toList, .EditContentByID e] ∧
      e.ID = id ∧ e.Tags = Split req.Tags comma := by
  unfold handler.EditContentByID
  rw [if_neg hu]
  simp only [hb, hv, hid]
  split
  · exact ⟨_, rfl, rfl, rfl⟩
  · exact ⟨_, rfl, rfl, rfl⟩

/-- What the repository `EditContentByID` does to the tags fields and the keys
of the store: the rows of the given key take the new field when it is not
empty, and nothing else changes. -/
theorem EditContentByID_tags (db : DB) (e : entity.ContentEntity) (s : Str)
    (he : e.Tags = Split s comma) (hf : db.fault .update = none) :
    ∃ db1, EditContentByID db e = .ok db1 ∧
      db1.contents.map (fun m => m.Tags)
        = db.contents.map (fun m => if m.ID = e.ID ∧ s ≠ [] then s else m.Tags) ∧
      db1.contents.map (fun m => m.ID) = db.contents.map (fun m => m.ID) := by
  have htags : (toModel e).Tags = s := by
    simp only [toModel, he]
    exact Join_Split s
  refine ⟨_, by simp only [EditContentByID, hf]; rfl, ?_, ?_⟩
  · simp only [List.map_map]
    apply List.map_congr_left
    intro m _
    simp only [Function.comp]
    by_cases hm : m.ID = e.ID
    · by_cases hs : s = []
      · simp [hm, updates, htags, hs]
      · simp [hm, updates, htags, hs]
    · simp [hm]
  · simp only [List.map_map]
    apply List.map_congr_left
    intro m _
    simp only [Function.comp]
    by_cases hm : m.ID = e.ID
    · simp [hm, updates]
    · simp [hm]

/-- C15 (amended). The split on `,` followed by the join with `,` is the identity
on strings.  So for every request tags string `s`, also the empty one and those
with leading, trailing or consecutive commas: an authorized `CreateContent`
with a valid body hands the service an entity for which the repository
`CreateContent` inserts one row, with the tags field `s`; an authorized
`EditContentByID` with a valid body and key hands the service an entity for
which the repository `EditContentByID` sets the tags field of the rows of that
key to `s` when `s` is not empty, and leaves every tags field as it was when
`s` is empty; the tags fields of the other rows and all keys stay as they
were. -/
theorem tags_field_persisted (s : Str) :
    Join (Split s comma) comma = s ∧
    (∀ (d : handler.Deps) (g : handler.DefaultSuccessResponse) (c : handler.Ctx)
      (e : entity.ContentEntity),
      (handler.Event.CreateContent e ∈ (handler.CreateContent d g c).trace ∨
        handler.Event.EditContentByID e ∈ (handler.EditContentByID d g c).trace) →
      ∃ req, d.BodyParser c.Body = .ok req ∧ e.Tags = Split req.Tags comma) ∧
    (∀ (d : handler.Deps) (g : handler.DefaultSuccessResponse) (c : handler.Ctx)
      (req : handler.ContentRequest), c.user.UserID ≠ 0 →
      d.BodyParser c.Body = .ok req → d.ValidateStruct req = none → req.Tags = s →
      ∃ e, (handler.CreateContent d g c).trace
          = [.BodyParser, .ValidateStruct, .CreateContent e] ∧
        ∀ db : DB, db.fault .create = none →
          ∃ db1 r, CreateContent db e = .ok db1 ∧ db1.contents = db.contents ++ [r] ∧
            r.Tags = s) ∧
    (∀ (d : handler.Deps) (g : handler.DefaultSuccessResponse) (c : handler.Ctx)
      (req : handler.ContentRequest) (id : Int), c.user.UserID ≠ 0 →
      d.BodyParser c.Body = .ok req → d.ValidateStruct req = none →
      d.StringToInt64 (c.Params "contentID".toList) = .ok id → req.Tags = s →
      ∃ e, (handler.EditContentByID d g c).trace
          = [.BodyParser, .ValidateStruct, .Params "contentID".toList,
              .EditContentByID e] ∧
        ∀ db : DB, db.fault .update = none →
          ∃ db1, EditContentByID db e = .ok db1 ∧
            db1.contents.map (fun m => m.Tags)
              = db.contents.map (fun m => if m.ID = id ∧ s ≠ [] then s else m.Tags) ∧
            db1.contents.map (fun m => m.ID) = db.contents.map (fun m => m.ID)) ∧
    (∀ (db : DB) (e : entity.ContentEntity), e.Tags = Split s comma →
      db.fault .create = none →
      ∃ db1 r, CreateContent db e = .ok db1 ∧ db1.contents = db.contents ++ [r] ∧
        r.Tags = s) ∧
    (∀ (db : DB) (e : entity.ContentEntity), e.Tags = Split s comma →
      db.fault .update = none →
      ∃ db1, EditContentByID db e = .ok db1 ∧
        db1.contents.map (fun m => m.Tags)
          = db.contents.map (fun m => if m.ID = e.ID ∧ s ≠ [] then s else m.Tags) ∧
        db1.contents.map (fun m => m.ID) = db.contents.map (fun m => m.ID) ∧
        (s ≠ [] → ∀ r ∈ db1.contents, r.ID = e.ID → r.Tags = s)) := by
  have hcreate : ∀ (db : DB) (e : entity.ContentEntity), e.Tags = Split s comma →
      db.fault .create = none →
      ∃ db1 r, CreateContent db e = .ok db1 ∧ db1.contents = db.contents ++ [r] ∧
        r.Tags = s := by
    intro db e he hf
    let r : model.Content := { toModel e with ID := db.nextID, CreatedAt := db.now }
    let db1 : DB := { db with contents := db.contents ++ [r], nextID := db.nextID + 1 }
    refine ⟨db1, r, ?_, rfl, ?_⟩
    · simp only [CreateContent, hf]
    · simp only [toModel, he, r]
      exact Join_Split s
  refine ⟨Join_Split s, ?_, ?_, ?_, hcreate, ?_⟩
  · intro d g c e h
    rcases h with h | h
    · exact CreateContent_entity_tags d g c e h
    · exact EditContentByID_entity_tags d g c e h
  · intro d g c req hu hb hv hs
    obtain ⟨e, htr, he⟩ := CreateContent_calls_service d g c req hu hb hv
    rw [hs] at he
    exact ⟨e, htr, fun db hf => hcreate db e he hf⟩
  · intro d g c req id hu hb hv hid hs
    obtain ⟨e, htr, heid, he⟩ := EditContentByID_calls_service d g c req id hu hb hv hid
    rw [hs] at he
    refine ⟨e, htr, fun db hf => ?_⟩
    have h := EditContentByID_tags db e s he hf
    rw [heid] at h
    exact h
  · intro db e he hf
    obtain ⟨db1, hok, h1, h2⟩ := EditContentByID_tags db e s he hf
    refine ⟨db1, hok, h1, h2, ?_⟩
    intro hs r hr hid
    have hdb1 : db1 = { db with contents :=
        (db.contents.map (fun m => if m.ID = e.ID then updates m (toModel e) else m)) } := by
      simp only [EditContentByID, hf] at hok
      exact (Except.ok.inj hok).symm
    rw [hdb1] at hr
    simp only [List.mem_map] at hr
    obtain ⟨m, -, rfl⟩ := hr
    have htags : (toModel e).Tags = s := by
      simp only [toModel, he]
      exact Join_Split s
    by_cases hm : m.ID = e.ID
    · simp only [hm, if_true, updates, htags, if_neg hs]
    · rw [if_neg hm] at hid
      exact absurd hid hm

theorem tags_field_persisted_witness :
    Join (Split ",go,,news,".toList comma) comma = ",go,,news,".toList ∧
    (∃ e, (handler.CreateContent sample.deps sample.g0 (sample.ctx 1 [])).trace
        = [.BodyParser, .ValidateStruct, .CreateContent e] ∧
      ∀ db : DB, db.fault .create = none →
        ∃ db1 r, CreateContent db e = .ok db1 ∧ db1.contents = db.contents ++ [r] ∧
          r.Tags = "go,news".toList) ∧
    (∃ e, (handler.EditContentByID sample.deps sample.g0 (sample.ctx 1 [])).trace
        = [.BodyParser, .ValidateStruct, .Params "contentID".toList, .EditContentByID e] ∧
      ∀ db : DB, db.fault .update = none →
        ∃ db1, EditContentByID db e = .ok db1 ∧
          db1.contents.map (fun m => m.Tags)
            = db.contents.map
                (fun m => if m.ID = 7 ∧ "go,news".toList ≠ [] then "go,news".toList else m.Tags) ∧
          db1.contents.map (fun m => m.ID) = db.contents.map (fun m => m.ID)) ∧
    (∃ db1 r, CreateContent sample.db { sample.content with Tags := Split ",go,,news,".toList comma }
        = .ok db1 ∧ db1.contents = sample.db.contents ++ [r] ∧ r.Tags = ",go,,news,".toList) ∧
    (∃ db1, EditContentByID sample.dbTagged
        { sample.content with ID := 7, Tags := Split ",go,,news,".toList comma } = .ok db1 ∧
      db1.contents.map (fun m => m.Tags) = [",go,,news,".toList, "b".toList] ∧
      db1.contents.map (fun m => m.ID) = [7, 8]) ∧
    (∃ db1, EditContentByID sample.dbTagged
        { sample.content with ID := 7, Tags := Split [] comma } = .ok db1 ∧
      db1.contents.map (fun m => m.Tags) = ["a".toList, "b".toList] ∧
      db1.contents.map (fun m => m.ID) = [7, 8]) :=
  have h := tags_field_persisted ",go,,news,".toList
  have hg := tags_field_persisted "go,news".toList
  have h0 := tags_field_persisted []
  ⟨h.1,
   hg.2.2.1 sample.deps sample.g0 (sample.ctx 1 []) sample.request (by decide) rfl rfl rfl,
   hg.2.2.2.1 sample.deps sample.g0 (sample.ctx 1 []) sample.request 7 (by decide) rfl rfl rfl
     rfl,
   h.2.2.2.2.1 sample.db { sample.content with Tags := Split ",go,,news,".toList comma }
     rfl rfl,
   match h.2.2.2.2.2 sample.dbTagged
     { sample.content with ID := 7, Tags := Split ",go,,news,".toList comma } rfl rfl with
   | ⟨db1, hok, h1, h2, _⟩ => ⟨db1, hok, h1, h2⟩,
   match h0.2.2.2.2.2 sample.dbTagged
     { sample.content with ID := 7, Tags := Split [] comma } rfl rfl with
   | ⟨db1, hok, h1, h2, _⟩ => ⟨db1, hok, h1, h2⟩⟩

end codec2

/-! ### C16 -/

section replies

open handler

/-- The answer of the listing of the administration once it has called the
service with the query `q`. -/
theorem admin_listing_reply (d : Deps) (g : DefaultSuccessResponse) (c : Ctx)
    (q : entity.QueryString) (h : Event.GetContents q ∈ (handler.GetContents d g c).trace) :
    handler.GetContents d g c =
      match d.contentService.GetContents q with
      | .error err => fail StatusBadRequest err [.GetContents q]
      | .ok (results, totalData, totalPages) =>
        ⟨StatusOK,
         .success { g with
           Status := true
           Message := "Success".toList
           Data := .contents (results.map (toResponse d))
           Pagination := some
             { TotalRecords := totalData, Page := 1, PerPage := (results.length : Int),
               TotalPages := totalPages } },
         [.GetContents q]⟩ := by
  unfold handler.GetContents at h ⊢
  by_cases hu : c.user.UserID = 0
  · simp [hu, fail] at h
  · rw [if_neg hu] at h ⊢
    generalize (if c.Query "page".toList ≠ [] then d.StringToInt (c.Query "page".toList)
      else .ok 1) = P at h ⊢
    generalize (if c.Query "limit".toList ≠ [] then d.StringToInt (c.Query "limit".toList)
      else .ok 10) = L at h ⊢
    generalize (if c.Query "categoryID".toList ≠ [] then
      d.StringToInt (c.Query "categoryID".toList) else .ok 0) = C at h ⊢
    rcases P with _ | page
    · simp [fail] at h
    rcases L with _ | limit
    · simp [fail] at h
    rcases C with _ | categoryID
    · simp [fail] at h
    simp only at h ⊢
    have hq : q = ⟨limit, page,
        if c.Query "orderBy".toList ≠ [] then c.Query "orderBy".toList else "created_at".toList,
        if c.Query "orderType".toList ≠ [] then c.Query "orderType".toList else "desc".toList,
        c.Query "search".toList, [], categoryID⟩ := by
      split at h
      · simpa only [fail, List.mem_singleton, Event.GetContents.injEq] using h
      · simpa only [List.mem_singleton, Event.GetContents.injEq] using h
    rw [← hq]
    split <;> simp [List.length_map]

/-- The answer of the public listing once it has called the service with the
query `q`. -/
theorem public_listing_reply (d : Deps) (g : DefaultSuccessResponse) (c : Ctx)
    (q : entity.QueryString) (h : Event.GetContents q ∈ (GetContentWithQuery d g c).trace) :
    GetContentWithQuery d g c =
      match d.contentService.GetContents q with
      | .error err => fail StatusBadRequest err [.GetContents q]
      | .ok (results, totalData, totalPages) =>
        ⟨StatusOK,
         .success { g with
           Status := true
           Message := "Success".toList
           Data := .contents (results.map (toResponse d))
           Pagination := some
             { TotalRecords := totalData, Page := q.Page, PerPage := q.Limit,
               TotalPages := totalPages } },
         [.GetContents q]⟩ := by
  unfold GetContentWithQuery at h ⊢
  generalize (if c.Query "page".toList ≠ [] then d.StringToInt (c.Query "page".toList)
    else .ok 1) = P at h ⊢
  generalize (if c.Query "limit".toList ≠ [] then d.StringToInt (c.Query "limit".toList)
    else .ok 6) = L at h ⊢
  generalize (if c.Query "categoryID".toList ≠ [] then
    d.StringToInt (c.Query "categoryID".toList) else .ok 0) = C at h ⊢
  rcases P with _ | page
  · simp [fail] at h
  rcases L with _ | limit
  · simp [fail] at h
  rcases C with _ | categoryID
  · simp [fail] at h
  simp only at h ⊢
  have hq : q = ⟨limit, page,
      if c.Query "orderBy".toList ≠ [] then c.Query "orderBy".toList else "created_at".toList,
      if c.Query "orderType".toList ≠ [] then c.Query "orderType".toList else "desc".toList,
      c.Query "search".toList, "PUBLISH".toList, categoryID⟩ := by
    split at h
    · simpa only [fail, List.mem_singleton, Event.GetContents.injEq] using h
    · simpa only [List.mem_singleton, Event.GetContents.injEq] using h
  rw [← hq]
  split <;> simp [hq]

/-- A listing of the administration that answers 200 has called the service
once, and the service has returned a result. -/
theorem admin_listing_ok (d : Deps) (g : DefaultSuccessResponse) (c : Ctx)
    (h : (handler.GetContents d g c).status = StatusOK) :
    ∃ q results totalData totalPages,
      (handler.GetContents d g c).trace = [.GetContents q] ∧
      d.contentService.GetContents q = .ok (results, totalData, totalPages) := by
  unfold handler.GetContents at h ⊢
  by_cases hu : c.user.UserID = 0
  · rw [if_pos hu] at h
    simp [fail, StatusOK, StatusBadRequest, StatusUnauthorized] at h
  · rw [if_neg hu] at h ⊢
    generalize (if c.Query "page".toList ≠ [] then d.StringToInt (c.Query "page".toList)
      else .ok 1) = P at h ⊢
    generalize (if c.Query "limit".toList ≠ [] then d.StringToInt (c.Query "limit".toList)
      else .ok 10) = L at h ⊢
    generalize (if c.Query "categoryID".toList ≠ [] then
      d.StringToInt (c.Query "categoryID".toList) else .ok 0) = C at h ⊢
    rcases P with _ | page
    · simp [fail, StatusOK, StatusBadRequest, StatusUnauthorized] at h
    rcases L with _ | limit
    · simp [fail, StatusOK, StatusBadRequest, StatusUnauthorized] at h
    rcases C with _ | categoryID
    · simp [fail, StatusOK, StatusBadRequest, StatusUnauthorized] at h
    simp only at h ⊢
    split at h
    · simp [fail, StatusOK, StatusBadRequest, StatusUnauthorized] at h
    · rename_i results totalData totalPages heq
      exact ⟨_, results, totalData, totalPages, rfl, heq⟩

/-- A public listing that answers 200 has called the service once, and the
service has returned a result. -/
theorem public_listing_ok (d : Deps) (g : DefaultSuccessResponse) (c : Ctx)
    (h : (GetContentWithQuery d g c).status = StatusOK) :
    ∃ q results totalData totalPages,
      (GetContentWithQuery d g c).trace = [.GetContents q] ∧
      d.contentService.GetContents q = .ok (results, totalData, totalPages) := by
  unfold GetContentWithQuery at h ⊢
  generalize (if c.Query "page".toList ≠ [] then d.StringToInt (c.Query "page".toList)
    else .ok 1) = P at h ⊢
  generalize (if c.Query "limit".toList ≠ [] then d.StringToInt (c.Query "limit".toList)
    else .ok 6) = L at h ⊢
  generalize (if c.Query "categoryID".toList ≠ [] then
    d.StringToInt (c.Query "categoryID".toList) else .ok 0) = C at h ⊢
  rcases P with _ | page
  · simp [fail, StatusOK, StatusBadRequest, StatusUnauthorized] at h
  rcases L with _ | limit
  · simp [fail, StatusOK, StatusBadRequest, StatusUnauthorized] at h
  rcases C with _ | categoryID
  · simp [fail, StatusOK, StatusBadRequest, StatusUnauthorized] at h
  simp only at h ⊢
  split at h
  · simp [fail, StatusOK, StatusBadRequest, StatusUnauthorized] at h
  · rename_i results totalData totalPages heq
    exact ⟨_, results, totalData, totalPages, rfl, heq⟩

/-- C16. Every successful listing of the administration (answer 200) has called
the service once, and its pagination block reports page 1 and, as `PerPage`, the
number of items returned, whatever page and limit were asked; every successful
public listing has called the service once, and its pagination block reports the
page and the limit of the query, which are the requested ones (1 and 6 when
absent); both report as `TotalRecords` and `TotalPages` the values the service
returned.  A listing that has called the service with a query for which the
service returns a result is successful. -/
theorem pagination_block (d : Deps) (g : DefaultSuccessResponse) (c : Ctx) :
    ((handler.GetContents d g c).status = StatusOK →
      ∃ q results totalData totalPages,
        (handler.GetContents d g c).trace = [.GetContents q] ∧
        d.contentService.GetContents q = .ok (results, totalData, totalPages) ∧
        ∃ s, (handler.GetContents d g c).body = .success s ∧
          s.Data = .contents (results.map (toResponse d)) ∧
          s.Pagination = some ⟨totalData, 1, ((results.map (toResponse d)).length : Int),
            totalPages⟩) ∧
    ((GetContentWithQuery d g c).status = StatusOK →
      ∃ q results totalData totalPages,
        (GetContentWithQuery d g c).trace = [.GetContents q] ∧
        d.contentService.GetContents q = .ok (results, totalData, totalPages) ∧
        (∃ s, (GetContentWithQuery d g c).body = .success s ∧
          s.Data = .contents (results.map (toResponse d)) ∧
          s.Pagination = some ⟨totalData, q.Page, q.Limit, totalPages⟩) ∧
        (c.Query "page".toList = [] → q.Page = 1) ∧
        (c.Query "page".toList ≠ [] → d.StringToInt (c.Query "page".toList) = .ok q.Page) ∧
        (c.Query "limit".toList = [] → q.Limit = 6) ∧
        (c.Query "limit".toList ≠ [] →
          d.StringToInt (c.Query "limit".toList) = .ok q.Limit)) ∧
    (∀ (q : entity.QueryString) (results : List entity.ContentEntity)
      (totalData totalPages : Int),
      d.contentService.GetContents q = .ok (results, totalData, totalPages) →
      (Event.GetContents q ∈ (handler.GetContents d g c).trace →
        (handler.GetContents d g c).status = StatusOK ∧
        ∃ s, (handler.GetContents d g c).body = .success s ∧
          s.Data = .contents (results.map (toResponse d)) ∧
          s.Pagination = some ⟨totalData, 1, ((results.map (toResponse d)).length : Int),
            totalPages⟩) ∧
      (Event.GetContents q ∈ (GetContentWithQuery d g c).trace →
        (GetContentWithQuery d g c).status = StatusOK ∧
        (∃ s, (GetContentWithQuery d g c).body = .success s ∧
          s.Data = .contents (results.map (toResponse d)) ∧
          s.Pagination = some ⟨totalData, q.Page, q.Limit, totalPages⟩) ∧
        (c.Query "page".toList = [] → q.Page = 1) ∧
        (c.Query "page".toList ≠ [] → d.StringToInt (c.Query "page".toList) = .ok q.Page) ∧
        (c.Query "limit".toList = [] → q.Limit = 6) ∧
        (c.Query "limit".toList ≠ [] →
          d.StringToInt (c.Query "limit".toList) = .ok q.Limit))) := by
  have hadmin : ∀ (q : entity.QueryString) (results : List entity.ContentEntity)
      (totalData totalPages : Int),
      d.contentService.GetContents q = .ok (results, totalData, totalPages) →
      Event.GetContents q ∈ (handler.GetContents d g c).trace →
        (handler.GetContents d g c).status = StatusOK ∧
        ∃ s, (handler.GetContents d g c).body = .success s ∧
          s.Data = .contents (results.map (toResponse d)) ∧
          s.Pagination = some ⟨totalData, 1, ((results.map (toResponse d)).length : Int),
            totalPages⟩ := by
    intro q results totalData totalPages hs h
    rw [admin_listing_reply d g c q h, hs]
    exact ⟨rfl, _, rfl, rfl, by simp⟩
  have hpublic : ∀ (q : entity.QueryString) (results : List entity.ContentEntity)
      (totalData totalPages : Int),
      d.contentService.GetContents q = .ok (results, totalData, totalPages) →
      Event.GetContents q ∈ (GetContentWithQuery d g c).trace →
        (GetContentWithQuery d g c).status = StatusOK ∧
        (∃ s, (GetContentWithQuery d g c).body = .success s ∧
          s.Data = .contents (results.map (toResponse d)) ∧
          s.Pagination = some ⟨totalData, q.Page, q.Limit, totalPages⟩) ∧
        (c.Query "page".toList = [] → q.Page = 1) ∧
        (c.Query "page".toList ≠ [] → d.StringToInt (c.Query "page".toList) = .ok q.Page) ∧
        (c.Query "limit".toList = [] → q.Limit = 6) ∧
        (c.Query "limit".toList ≠ [] →
          d.StringToInt (c.Query "limit".toList) = .ok q.Limit) := by
    intro q results totalData totalPages hs h
    obtain ⟨h1, h2, h3, h4⟩ := public_listing_query d g c q h
    rw [public_listing_reply d g c q h, hs]
    exact ⟨rfl, ⟨_, rfl, rfl, rfl⟩, h3, h4, h1, h2⟩
  refine ⟨?_, ?_, fun q results totalData totalPages hs =>
    ⟨hadmin q results totalData totalPages hs, hpublic q results totalData totalPages hs⟩⟩
  · intro hok
    obtain ⟨q, results, totalData, totalPages, htr, hs⟩ := admin_listing_ok d g c hok
    have hmem : Event.GetContents q ∈ (handler.GetContents d g c).trace := by
      rw [htr]
      exact List.mem_singleton.mpr rfl
    exact ⟨q, results, totalData, totalPages, htr, hs,
      (hadmin q results totalData totalPages hs hmem).2⟩
  · intro hok
    obtain ⟨q, results, totalData, totalPages, htr, hs⟩ := public_listing_ok d g c hok
    have hmem : Event.GetContents q ∈ (GetContentWithQuery d g c).trace := by
      rw [htr]
      exact List.mem_singleton.mpr rfl
    exact ⟨q, results, totalData, totalPages, htr, hs,
      (hpublic q results totalData totalPages hs hmem).2⟩

theorem pagination_block_witness :
    ((handler.GetContents sample.deps sample.g0
        (sample.ctx 1 [("page".toList, "2".toList), ("limit".toList, "1".toList)])).status
          = StatusOK ∧
      ∃ s, (handler.GetContents sample.deps sample.g0
          (sample.ctx 1 [("page".toList, "2".toList), ("limit".toList, "1".toList)])).body
            = .success s ∧
        s.Data = .contents ([repository.toEntity (repository.preload sample.db
            (sample.row 2 "Rust intro".toList))].map (toResponse sample.deps)) ∧
        s.Pagination = some ⟨3, 1, 1, 3⟩) ∧
    ((GetContentWithQuery sample.deps sample.g0
        (sample.ctx 0 [("page".toList, "2".toList), ("limit".toList, "1".toList)])).status
          = StatusOK ∧
      ∃ s, (GetContentWithQuery sample.deps sample.g0
          (sample.ctx 0 [("page".toList, "2".toList), ("limit".toList, "1".toList)])).body
            = .success s ∧
        s.Data = .contents ([repository.toEntity (repository.preload sample.db
            (sample.row 2 "Rust intro".toList))].map (toResponse sample.deps)) ∧
        s.Pagination = some ⟨3, 2, 1, 3⟩) ∧
    (∃ q results totalData totalPages,
      (handler.GetContents sample.deps sample.g0
        (sample.ctx 1 [("page".toList, "2".toList), ("limit".toList, "1".toList)])).trace
          = [.GetContents q] ∧
      sample.deps.contentService.GetContents q = .ok (results, totalData, totalPages) ∧
      ∃ s, (handler.GetContents sample.deps sample.g0
          (sample.ctx 1 [("page".toList, "2".toList), ("limit".toList, "1".toList)])).body
            = .success s ∧
        s.Data = .contents (results.map (toResponse sample.deps)) ∧
        s.Pagination = some ⟨totalData, 1, ((results.map (toResponse sample.deps)).length : Int),
          totalPages⟩) ∧
    (∃ q results totalData totalPages,
      (GetContentWithQuery sample.deps sample.g0
        (sample.ctx 0 [("page".toList, "2".toList), ("limit".toList, "1".toList)])).trace
          = [.GetContents q] ∧
      sample.deps.contentService.GetContents q = .ok (results, totalData, totalPages) ∧
      ∃ s, (GetContentWithQuery sample.deps sample.g0
          (sample.ctx 0 [("page".toList, "2".toList), ("limit".toList, "1".toList)])).body
            = .success s ∧
        s.Data = .contents (results.map (toResponse sample.deps)) ∧
        s.Pagination = some ⟨totalData, q.Page, q.Limit, totalPages⟩) :=
  have ha := pagination_block sample.deps sample.g0
    (sample.ctx 1 [("page".toList, "2".toList), ("limit".toList, "1".toList)])
  have hp := pagination_block sample.deps sample.g0
    (sample.ctx 0 [("page".toList, "2".toList), ("limit".toList, "1".toList)])
  ⟨(ha.2.2 ⟨1, 2, "created_at".toList, "desc".toList, [], [], 0⟩
      [repository.toEntity (repository.preload sample.db (sample.row 2 "Rust intro".toList))]
      3 3 rfl).1 (by decide),
   match (hp.2.2 ⟨1, 2, "created_at".toList, "desc".toList, [], "PUBLISH".toList, 0⟩
      [repository.toEntity (repository.preload sample.db (sample.row 2 "Rust intro".toList))]
      3 3 rfl).2 (by decide) with
   | ⟨h1, h2, _⟩ => ⟨h1, h2⟩,
   match ha.1 (by decide) with
   | ⟨q, results, totalData, totalPages, h1, h2, h3⟩ =>
     ⟨q, results, totalData, totalPages, h1, h2, h3⟩,
   match hp.2.1 (by decide) with
   | ⟨q, results, totalData, totalPages, h1, h2, h3, _⟩ =>
     ⟨q, results, totalData, totalPages, h1, h2, h3⟩⟩

theorem CreateContent_service_error (d : Deps) (g : DefaultSuccessResponse) (c : Ctx)
    (e : entity.ContentEntity) (err : Str)
    (h : Event.CreateContent e ∈ (handler.CreateContent d g c).trace)
    (hs : d.contentService.CreateContent e = some err) :
    (handler.CreateContent d g c).status = StatusInternalServerError := by
  unfold handler.CreateContent at h ⊢
  split at h
  · simp [fail] at h
  · rename_i hu
    rw [if_neg hu]
    split at h
    · simp [fail] at h
    · split at h
      · simp [fail] at h
      · try simp only at h ⊢
        split at h
        · rfl
        · rename_i heq
          simp only [List.mem_cons, List.mem_singleton, reduceCtorEq, false_or,
            Event.CreateContent.injEq, List.not_mem_nil, or_false] at h
          rw [← h, hs] at heq
          cases heq

theorem EditContentByID_service_error (d : Deps) (g : DefaultSuccessResponse) (c : Ctx)
    (e : entity.ContentEntity) (err : Str)
    (h : Event.EditContentByID e ∈ (handler.EditContentByID d g c).trace)
    (hs : d.contentService.EditContentByID e = some err) :
    (handler.EditContentByID d g c).status = StatusInternalServerError := by
  unfold handler.EditContentByID at h ⊢
  split at h
  · simp [fail] at h
  · rename_i hu
    rw [if_neg hu]
    split at h
    · simp [fail] at h
    · split at h
      · simp [fail] at h
      · try simp only at h ⊢
        split at h
        · simp [fail] at h
        · try simp only at h ⊢
          split at h
          · rfl
          · rename_i heq
            simp only [List.mem_cons, List.mem_singleton, reduceCtorEq, false_or,
              Event.EditContentByID.injEq, List.not_mem_nil, or_false] at h
            rw [← h, hs] at heq
            cases heq

theorem DeleteContent_service_error (d : Deps) (g : DefaultSuccessResponse) (c : Ctx)
    (id : Int) (err : Str)
    (h : Event.DeleteContent id ∈ (handler.DeleteContent d g c).trace)
    (hs : d.contentService.DeleteContent id = some err) :
    (handler.DeleteContent d g c).status = StatusInternalServerError := by
  unfold handler.DeleteContent at h ⊢
  split at h
  · simp [fail] at h
  · rename_i hu
    rw [if_neg hu]
    try simp only at h ⊢
    split at h
    · simp [fail] at h
    · try simp only at h ⊢
      split at h
      · rfl
      · rename_i heq
        simp only [List.mem_cons, List.mem_singleton, reduceCtorEq, false_or,
          Event.DeleteContent.injEq, List.not_mem_nil, or_false] at h
        rw [← h, hs] at heq
        cases heq

theorem GetContentByID_service_error (d : Deps) (g : DefaultSuccessResponse) (c : Ctx)
    (id : Int) (err : Str) (hs : d.contentService.GetContentByID id = .error err) :
    (Event.GetContentByID id ∈ (handler.GetContentByID d g c).trace →
      (handler.GetContentByID d g c).status = StatusInternalServerError) ∧
    (Event.GetContentByID id ∈ (handler.GetContentDetail d g c).trace →
      (handler.GetContentDetail d g c).status = StatusInternalServerError) := by
  constructor
  · intro h
    unfold handler.GetContentByID at h ⊢
    split at h
    · simp [fail] at h
    · rename_i hu
      rw [if_neg hu]
      try simp only at h ⊢
      split at h
      · simp [fail] at h
      · try simp only at h ⊢
        split at h
        · rfl
        · rename_i heq
          simp only [List.mem_cons, List.mem_singleton, reduceCtorEq, false_or,
            Event.GetContentByID.injEq, List.not_mem_nil, or_false] at h
          rw [← h, hs] at heq
          cases heq
  · intro h
    unfold handler.GetContentDetail at h ⊢
    try simp only at h ⊢
    split at h
    · simp [fail] at h
    · try simp only at h ⊢
      split at h
      · rfl
      · rename_i heq
        simp only [List.mem_cons, List.mem_singleton, reduceCtorEq, false_or,
          Event.GetContentByID.injEq, List.not_mem_nil, or_false] at h
        rw [← h, hs] at heq
        cases heq

end replies

/-! ### C13, C11 -/

section upload

open handler

theorem lookup_filter_ne (files : List (Str × Str)) (path : Str) :
    (files.filter (fun f => !(f.1 == path))).lookup path = none := by
  induction files with
  | nil => rfl
  | cons f rest ih =>
    obtain ⟨k, v⟩ := f
    rw [List.filter_cons]
    by_cases h : k = path
    · rw [if_neg (by simp [h])]
      exact ih
    · rw [if_pos (by simpa using h)]
      have h2 : (path == k) = false := by simpa using fun e => h e.symm
      rw [List.lookup_cons, h2]
      exact ih

theorem Open_write (w : World) (path data : Str) :
    os.Open (os.write w path data) path = .ok data := by
  simp [os.Open, os.write, List.lookup]

theorem stagedPath_ne_nil (file : FileHeader) : stagedPath file ≠ [] := by
  simp [stagedPath]

/-- The upload handler for an authorized request with a file that is staged
without error, when the service is the R2 adapter and the put fails. -/
theorem UploadImageR2_put_fails (a : cloudflare.cloudflareR2Adapter) (d : Deps)
    (g : DefaultSuccessResponse) (c : Ctx) (w : World) (file : FileHeader) (err : Str)
    (hsvc : d.contentService.UploadImageR2 = cloudflare.UploadImage a)
    (hu : c.user.UserID ≠ 0) (hform : c.FormFile "image".toList = .ok file)
    (hsave : w.fault .SaveFile = none) (hput : w.fault .PutObject = some err) :
    UploadImageR2 d g c w =
      (fail StatusInternalServerError err
        [.FormFile "image".toList, .SaveFile (stagedPath file),
          .UploadImageR2 ⟨formatInt c.user.UserID ++ "-".toList ++ formatInt w.now,
            stagedPath file⟩],
       os.write w (stagedPath file) file.Content) := by
  unfold UploadImageR2
  rw [if_neg hu]
  simp only [hform, SaveFile, hsave, hsvc, cloudflare.UploadImage, Open_write,
    cloudflare.PutObject]
  have h1 : (os.write w (stagedPath file) file.Content).fault .PutObject = some err := hput
  simp only [h1]
  rfl

/-- The upload handler for an authorized request with a file, when the service
is the R2 adapter and no operation fails. -/
theorem UploadImageR2_ok (a : cloudflare.cloudflareR2Adapter) (d : Deps)
    (g : DefaultSuccessResponse) (c : Ctx) (w : World) (file : FileHeader)
    (hsvc : d.contentService.UploadImageR2 = cloudflare.UploadImage a)
    (hu : c.user.UserID ≠ 0) (hform : c.FormFile "image".toList = .ok file)
    (hsave : w.fault .SaveFile = none) (hput : w.fault .PutObject = none)
    (hremove : w.fault .Remove = none) :
    UploadImageR2 d g c w =
      (⟨StatusCreated,
        .success { g with
          Status := true
          Message := "Success".toList
          Data := .urlImage (a.BaseUrl ++ "/".toList ++
            (formatInt c.user.UserID ++ "-".toList ++ formatInt w.now)) },
        [.FormFile "image".toList, .SaveFile (stagedPath file),
          .UploadImageR2 ⟨formatInt c.user.UserID ++ "-".toList ++ formatInt w.now,
            stagedPath file⟩,
          .Remove (stagedPath file)]⟩,
       { w with
         files := ((stagedPath file, file.Content) ::
           w.files.filter (fun f => !(f.1 == stagedPath file))).filter
             (fun f => !(f.1 == stagedPath file))
         objects := ⟨a.Bucket, formatInt c.user.UserID ++ "-".toList ++ formatInt w.now,
             file.Content, "image/jpeg".toList⟩ ::
           w.objects.filter (fun x => !(x.Bucket == a.Bucket &&
             x.Key == formatInt c.user.UserID ++ "-".toList ++ formatInt w.now)) }) := by
  unfold UploadImageR2
  rw [if_neg hu]
  simp only [hform, SaveFile, hsave, hsvc, cloudflare.UploadImage, Open_write,
    cloudflare.PutObject]
  have h1 : (os.write w (stagedPath file) file.Content).fault .PutObject = none := hput
  simp only [h1, stagedPath_ne_nil, ne_eq, not_false_eq_true, if_true, os.Remove]
  have h2 : ({ os.write w (stagedPath file) file.Content with
      objects := ⟨a.Bucket, formatInt c.user.UserID ++ "-".toList ++ formatInt w.now,
          file.Content, "image/jpeg".toList⟩ ::
        (os.write w (stagedPath file) file.Content).objects.filter (fun x => !(x.Bucket == a.Bucket &&
          x.Key == formatInt c.user.UserID ++ "-".toList ++ formatInt w.now)) } : World).fault
        .Remove = none := hremove
  simp only [h2, hremove, os.fileExists, os.write, List.lookup, beq_self_eq_true,
    Option.isSome_some, if_true]

/-- The upload handler when the put succeeds and the removal of the staged file
fails. -/
theorem UploadImageR2_remove_fails (a : cloudflare.cloudflareR2Adapter) (d : Deps)
    (g : DefaultSuccessResponse) (c : Ctx) (w : World) (file : FileHeader) (err : Str)
    (hsvc : d.contentService.UploadImageR2 = cloudflare.UploadImage a)
    (hu : c.user.UserID ≠ 0) (hform : c.FormFile "image".toList = .ok file)
    (hsave : w.fault .SaveFile = none) (hput : w.fault .PutObject = none)
    (hremove : w.fault .Remove = some err) :
    (UploadImageR2 d g c w).1.status = StatusInternalServerError := by
  unfold UploadImageR2
  rw [if_neg hu]
  simp only [hform, SaveFile, hsave, hsvc, cloudflare.UploadImage, Open_write,
    cloudflare.PutObject]
  have h1 : (os.write w (stagedPath file) file.Content).fault .PutObject = none := hput
  simp only [h1, hput, hremove, stagedPath_ne_nil, ne_eq, not_false_eq_true, if_true,
    os.Remove, os.write, fail]

/-- C13. Direct upload by an authorized request whose file is staged without
error, the service handing the request to the R2 adapter.  If neither the put
nor the removal fails, the handler answers 201 with the URL
`BaseUrl/objectKey`, the staged file no longer exists and the object is in the
bucket under the key; whenever the handler answers 201 the staged file no
longer exists and the URL is `BaseUrl/objectKey`.  If the put fails, the
handler answers 500 with the error of the put, the staged file still exists
and the bucket is unchanged. -/
theorem upload_reconciliation (a : cloudflare.cloudflareR2Adapter) (d : Deps)
    (g : DefaultSuccessResponse) (c : Ctx) (w : World) (file : FileHeader)
    (hsvc : d.contentService.UploadImageR2 = cloudflare.UploadImage a)
    (hu : c.user.UserID ≠ 0) (hform : c.FormFile "image".toList = .ok file)
    (hsave : w.fault .SaveFile = none) :
    (w.fault .PutObject = none → w.fault .Remove = none →
      (UploadImageR2 d g c w).1.status = StatusCreated ∧
      ⟨a.Bucket, formatInt c.user.UserID ++ "-".toList ++ formatInt w.now, file.Content,
        "image/jpeg".toList⟩ ∈ (UploadImageR2 d g c w).2.objects) ∧
    ((UploadImageR2 d g c w).1.status = StatusCreated →
      os.fileExists (UploadImageR2 d g c w).2 (stagedPath file) = false ∧
      (UploadImageR2 d g c w).1.body = .success { g with
        Status := true
        Message := "Success".toList
        Data := .urlImage (a.BaseUrl ++ "/".toList ++
          (formatInt c.user.UserID ++ "-".toList ++ formatInt w.now)) }) ∧
    (∀ err, w.fault .PutObject = some err →
      (UploadImageR2 d g c w).1.status = StatusInternalServerError ∧
      (UploadImageR2 d g c w).1.body = .error ⟨false, err⟩ ∧
      os.fileExists (UploadImageR2 d g c w).2 (stagedPath file) = true ∧
      (UploadImageR2 d g c w).2.objects = w.objects) := by
  have hne : StatusInternalServerError ≠ StatusCreated := by decide
  refine ⟨?_, ?_, ?_⟩
  · intro hput hremove
    rw [UploadImageR2_ok a d g c w file hsvc hu hform hsave hput hremove]
    exact ⟨rfl, List.mem_cons_self _ _⟩
  · intro hok
    cases hput : w.fault .PutObject with
    | some err =>
      rw [UploadImageR2_put_fails a d g c w file err hsvc hu hform hsave hput] at hok
      exact absurd hok hne
    | none =>
      cases hremove : w.fault .Remove with
      | some err =>
        rw [UploadImageR2_remove_fails a d g c w file err hsvc hu hform hsave hput hremove]
          at hok
        exact absurd hok hne
      | none =>
        rw [UploadImageR2_ok a d g c w file hsvc hu hform hsave hput hremove]
        refine ⟨?_, rfl⟩
        simp only [os.fileExists, lookup_filter_ne, Option.isSome_none]
  · intro err hput
    rw [UploadImageR2_put_fails a d g c w file err hsvc hu hform hsave hput]
    refine ⟨rfl, rfl, ?_, rfl⟩
    simp [os.fileExists, os.write, List.lookup]

theorem upload_reconciliation_witness :
    ((UploadImageR2 sample.deps sample.g0 (sample.ctx 1 []) sample.world).1.status
        = StatusCreated ∧
      os.fileExists (UploadImageR2 sample.deps sample.g0 (sample.ctx 1 []) sample.world).2
        "./temp/content/cat.jpg".toList = false ∧
      (UploadImageR2 sample.deps sample.g0 (sample.ctx 1 []) sample.world).1.body
        = .success ⟨true, "Success".toList,
            .urlImage "https://cdn.example/1-1700000000000000000".toList, none⟩) ∧
    ((UploadImageR2 sample.deps sample.g0 (sample.ctx 1 []) sample.worldPutFails).1.status
        = StatusInternalServerError ∧
      (UploadImageR2 sample.deps sample.g0 (sample.ctx 1 []) sample.worldPutFails).1.body
        = .error ⟨false, "put failed".toList⟩ ∧
      os.fileExists (UploadImageR2 sample.deps sample.g0 (sample.ctx 1 [])
        sample.worldPutFails).2 "./temp/content/cat.jpg".toList = true) :=
  have h1 := upload_reconciliation sample.r2 sample.deps sample.g0 (sample.ctx 1 [])
    sample.world ⟨"cat.jpg".toList, "JFIF".toList⟩ rfl (by decide) rfl rfl
  have h2 := upload_reconciliation sample.r2 sample.deps sample.g0 (sample.ctx 1 [])
    sample.worldPutFails ⟨"cat.jpg".toList, "JFIF".toList⟩ rfl (by decide) rfl rfl
  have hs := (h1.1 rfl rfl).1
  ⟨⟨hs, (h1.2.1 hs).1, (h1.2.1 hs).2⟩,
   ⟨(h2.2.2 "put failed".toList rfl).1, (h2.2.2 "put failed".toList rfl).2.1,
    (h2.2.2 "put failed".toList rfl).2.2.1⟩⟩

/-- The upload handler when the service, whatever it is, returns an error. -/
theorem UploadImageR2_service_error (d : Deps) (g : DefaultSuccessResponse) (c : Ctx)
    (w : World) (file : FileHeader) (err : Str)
    (hu : c.user.UserID ≠ 0) (hform : c.FormFile "image".toList = .ok file)
    (hsave : w.fault .SaveFile = none)
    (hs : (d.contentService.UploadImageR2
      ⟨formatInt c.user.UserID ++ "-".toList ++ formatInt w.now, stagedPath file⟩
      (os.write w (stagedPath file) file.Content)).1 = .error err) :
    (UploadImageR2 d g c w).1.status = StatusInternalServerError := by
  unfold UploadImageR2
  rw [if_neg hu]
  simp only [hform, SaveFile, hsave]
  have hnow : (os.write w (stagedPath file) file.Content).now = w.now := rfl
  rw [hnow]
  generalize d.contentService.UploadImageR2
    ⟨formatInt c.user.UserID ++ "-".toList ++ formatInt w.now, stagedPath file⟩
    (os.write w (stagedPath file) file.Content) = res at hs
  obtain ⟨r, w2⟩ := res
  simp only at hs
  subst hs
  rfl

/-- C11 (code). When the call of the content service returns an error, the two
listings `GetContents` and `GetContentWithQuery` answer 400, whereas
`CreateContent`, `EditContentByID`, `DeleteContent`, `GetContentByID`,
`GetContentDetail` and `UploadImageR2` answer 500. -/
theorem service_error_status (d : Deps) (g : DefaultSuccessResponse) (c : Ctx) (err : Str) :
    (∀ q, Event.GetContents q ∈ (handler.GetContents d g c).trace →
      d.contentService.GetContents q = .error err →
      (handler.GetContents d g c).status = StatusBadRequest) ∧
    (∀ q, Event.GetContents q ∈ (GetContentWithQuery d g c).trace →
      d.contentService.GetContents q = .error err →
      (GetContentWithQuery d g c).status = StatusBadRequest) ∧
    (∀ e, Event.CreateContent e ∈ (handler.CreateContent d g c).trace →
      d.contentService.CreateContent e = some err →
      (handler.CreateContent d g c).status = StatusInternalServerError) ∧
    (∀ e, Event.EditContentByID e ∈ (handler.EditContentByID d g c).trace →
      d.contentService.EditContentByID e = some err →
      (handler.EditContentByID d g c).status = StatusInternalServerError) ∧
    (∀ id, Event.DeleteContent id ∈ (handler.DeleteContent d g c).trace →
      d.contentService.DeleteContent id = some err →
      (handler.DeleteContent d g c).status = StatusInternalServerError) ∧
    (∀ id, Event.GetContentByID id ∈ (handler.GetContentByID d g c).trace →
      d.contentService.GetContentByID id = .error err →
      (handler.GetContentByID d g c).status = StatusInternalServerError) ∧
    (∀ id, Event.GetContentByID id ∈ (handler.GetContentDetail d g c).trace →
      d.contentService.GetContentByID id = .error err →
      (handler.GetContentDetail d g c).status = StatusInternalServerError) ∧
    (∀ (w : World) (file : FileHeader), c.user.UserID ≠ 0 →
      c.FormFile "image".toList = .ok file → w.fault .SaveFile = none →
      (d.contentService.UploadImageR2
        ⟨formatInt c.user.UserID ++ "-".toList ++ formatInt w.now, stagedPath file⟩
        (os.write w (stagedPath file) file.Content)).1 = .error err →
      (UploadImageR2 d g c w).1.status = StatusInternalServerError) := by
  refine ⟨?_, ?_, ?_, ?_, ?_, ?_, ?_, ?_⟩
  · intro q h hs
    rw [admin_listing_reply d g c q h, hs]
    rfl
  · intro q h hs
    rw [public_listing_reply d g c q h, hs]
    rfl
  · intro e h hs
    exact CreateContent_service_error d g c e err h hs
  · intro e h hs
    exact EditContentByID_service_error d g c e err h hs
  · intro id h hs
    exact DeleteContent_service_error d g c id err h hs
  · intro id h hs
    exact (GetContentByID_service_error d g c id err hs).1 h
  · intro id h hs
    exact (GetContentByID_service_error d g c id err hs).2 h
  · intro w file hu hform hsave hs
    exact UploadImageR2_service_error d g c w file err hu hform hsave hs

theorem service_error_status_witness :
    (handler.GetContents sample.depsFailing sample.g0 (sample.ctx 1 [])).status = 400 ∧
    (GetContentWithQuery sample.depsFailing sample.g0 (sample.ctx 1 [])).status = 400 ∧
    (handler.CreateContent sample.depsFailing sample.g0 (sample.ctx 1 [])).status = 500 ∧
    (handler.GetContentByID sample.depsFailing sample.g0 (sample.ctx 1 [])).status = 500 :=
  have h := service_error_status sample.depsFailing sample.g0 (sample.ctx 1 [])
    "connection refused".toList
  ⟨h.1 ⟨10, 1, "created_at".toList, "desc".toList, [], [], 0⟩ (by decide) rfl,
   h.2.1 ⟨6, 1, "created_at".toList, "desc".toList, [], "PUBLISH".toList, 0⟩ (by decide) rfl,
   h.2.2.1 _ (List.mem_cons_of_mem _ (List.mem_cons_of_mem _ (List.mem_singleton.mpr rfl))) rfl,
   h.2.2.2.2.2.1 7 (by decide) rfl⟩

end upload

end bwanews
